import Mathlib

/-!
Verification of the trueno-db analytical engine core against its
natural-language specification.

The Rust sources are shallowly embedded:

* `usize` values become `Nat`; `i32`/`i64` values become `Int` (wrapping
  arithmetic is made explicit through `wrap32`/`wrap64`);
* `f32` and `f64` values are represented exactly as integers scaled by
  `2 ^ 149` (resp. `2 ^ 1074`): every finite IEEE-754 binary32 (binary64)
  number is an integer multiple of `2 ^ (-149)` (resp. `2 ^ (-1074)`).
  Rounding to nearest-even at 24 (resp. 53) significant bits is implemented
  by `rnd24`/`rnd53`, and each arithmetic operation rounds its exact result,
  exactly as IEEE-754 prescribes for finite, non-overflowing computations
  (overflow to infinity and NaN are outside the model);
* Arrow record batches become `RBatch`: a list of named typed columns
  together with the stored row count and the reported memory footprint
  (`get_array_memory_size`, which is not derivable from the values, is an
  explicit field; the footprint of a zero-copy slice is modelled as
  `rows * (parent bytes / parent rows)`);
* fallible Rust functions return `Except Err`.
-/

set_option maxRecDepth 100000

namespace TruenoDB

/-- Error type of the crate, from `src/error.rs` (the `InvalidInput` variant
is exercised throughout `src/topk.rs`, `src/query/executor.rs` and
`tests/error_test.rs`; the enum in the snapshot of `src/error.rs` predates it).
The `Io` and `Arrow` wrapper variants are modelled with string payloads. -/
inductive Err where
  | GpuInitFailed (msg : String)
  | VramExhausted (msg : String)
  | BackendMismatch (gpu_result : String) (simd_result : String)
  | ParseError (msg : String)
  | StorageError (msg : String)
  | QueueClosed
  | IoError (msg : String)
  | ArrowError (msg : String)
  | InvalidInput (msg : String)
  | Other (msg : String)
  deriving DecidableEq, Repr

/-- `true` exactly on the `StorageError` variant. -/
def Err.is_storage_error : Err → Bool
  | .StorageError _ => true
  | _ => false

/-- `true` exactly on the `InvalidInput` variant. -/
def Err.is_invalid_input : Err → Bool
  | .InvalidInput _ => true
  | _ => false

/-- Arrow logical types used by the engine (`DataType` in the sources,
restricted to the vocabulary the core manipulates). -/
inductive DType where
  | Int32
  | Int64
  | Float32
  | Float64
  | Utf8
  deriving DecidableEq, Repr

/-- Column contents: one contiguous typed array with per-slot validity
(`none` is a null slot).  `f32` values are scaled by `2 ^ 149` and `f64`
values by `2 ^ 1074` (see the file header). -/
inductive ColData where
  | i32 (vals : List (Option Int))
  | i64 (vals : List (Option Int))
  | f32 (vals : List (Option Int))
  | f64 (vals : List (Option Int))
  | utf8 (vals : List (Option String))
  deriving DecidableEq, Repr

/-- The logical type of a column. -/
def ColData.dtype : ColData → DType
  | .i32 _ => .Int32
  | .i64 _ => .Int64
  | .f32 _ => .Float32
  | .f64 _ => .Float64
  | .utf8 _ => .Utf8

/-- Number of slots stored in a column. -/
def ColData.len : ColData → Nat
  | .i32 vs => vs.length
  | .i64 vs => vs.length
  | .f32 vs => vs.length
  | .f64 vs => vs.length
  | .utf8 vs => vs.length

/-- Zero-copy slice of a column: `length` slots starting at `offset`. -/
def ColData.slice (offset length : Nat) : ColData → ColData
  | .i32 vs => .i32 ((vs.drop offset).take length)
  | .i64 vs => .i64 ((vs.drop offset).take length)
  | .f32 vs => .f32 ((vs.drop offset).take length)
  | .f64 vs => .f64 ((vs.drop offset).take length)
  | .utf8 vs => .utf8 ((vs.drop offset).take length)

/-- Arrow `RecordBatch`: named typed columns, the stored row count and the
reported memory footprint (`get_array_memory_size`). -/
structure RBatch where
  cols : List (String × ColData)
  num_rows : Nat
  mem_bytes : Nat
  deriving DecidableEq, Repr

/-- `RecordBatch::slice(offset, length)`: every column is sliced, the row
count becomes `length`.  The memory footprint of the zero-copy slice is
modelled as `length * (parent bytes / parent rows)`. -/
def RBatch.slice (b : RBatch) (offset length : Nat) : RBatch :=
  { cols := b.cols.map fun c => (c.1, c.2.slice offset length)
    num_rows := length
    mem_bytes := length * (b.mem_bytes / b.num_rows) }

/-- Morsel size for out-of-core execution (128MB chunks),
`MORSEL_SIZE_BYTES` in `src/storage/mod.rs`. -/
def MORSEL_SIZE_BYTES : Nat := 128 * 1024 * 1024

/-- `StorageEngine` from `src/storage/mod.rs`: the ordered batches. -/
structure StorageEngine where
  batches : List RBatch
  deriving DecidableEq, Repr

/-- Message returned by `StorageEngine::update_row`. -/
def update_row_msg : String :=
  "Single-row updates not supported in columnar storage. Use append_batch() for bulk re-analysis instead."

/-- `StorageEngine::update_row` from `src/storage/mod.rs` lines 176-187:
unconditionally returns `Err(Error::StorageError(..))` and leaves the
engine untouched (`&mut self` is never written). -/
def update_row (s : StorageEngine) (_row_id : Nat) (_values : RBatch) :
    Except Err Unit × StorageEngine :=
  (.error (.StorageError update_row_msg), s)

/-- `MorselIterator` state from `src/storage/mod.rs` lines 191-196. -/
structure MorselIterator where
  batches : List RBatch
  current_batch_idx : Nat
  current_offset : Nat
  morsel_rows : Nat
  deriving DecidableEq, Repr

/-- `MorselIterator::calculate_morsel_rows` (lines 213-227): rows that fit
in one 128MB morsel, computed from one batch. -/
def calculate_morsel_rows (batch : RBatch) : Nat :=
  let num_rows := batch.num_rows
  if num_rows = 0 then 0
  else
    let total_bytes := batch.mem_bytes
    let bytes_per_row := total_bytes / num_rows
    if bytes_per_row = 0 then num_rows
    else MORSEL_SIZE_BYTES / bytes_per_row

/-- `MorselIterator::new` (lines 200-210): `morsel_rows` is computed once,
from the first batch only (`batches.first().map_or(0, ...)`). -/
def MorselIterator.new (batches : List RBatch) : MorselIterator :=
  { batches := batches
    current_batch_idx := 0
    current_offset := 0
    morsel_rows := (batches.head?.map calculate_morsel_rows).getD 0 }

/-- Body of `MorselIterator::next` (lines 233-257).  The Rust code recurses
to skip exhausted batches; that recursion advances `current_batch_idx`, so
`batches.length - current_batch_idx` bounds its depth and is supplied as
structural fuel (the fuel never runs out: `fuel = 0` coincides with the
`current_batch_idx >= batches.len()` exit). -/
def MorselIterator.next_aux : Nat → MorselIterator → Option (RBatch × MorselIterator)
  | 0, _ => none
  | fuel + 1, it =>
    match it.batches[it.current_batch_idx]? with
    | none => none
    | some current_batch =>
      if it.current_offset ≥ current_batch.num_rows then
        MorselIterator.next_aux fuel
          { it with current_batch_idx := it.current_batch_idx + 1, current_offset := 0 }
      else
        let remaining_rows := current_batch.num_rows - it.current_offset
        let slice_length := min remaining_rows it.morsel_rows
        some (current_batch.slice it.current_offset slice_length,
          { it with current_offset := it.current_offset + slice_length })

/-- `MorselIterator::next`. -/
def MorselIterator.next (it : MorselIterator) : Option (RBatch × MorselIterator) :=
  MorselIterator.next_aux (it.batches.length - it.current_batch_idx) it

/-- Running the iterator to completion under a fuel bound: `none` when the
iterator has not finished within `fuel` yields, otherwise the full list of
yielded morsels. -/
def morsels_from : Nat → MorselIterator → Option (List RBatch)
  | 0, _ => none
  | fuel + 1, it =>
    match it.next with
    | none => some []
    | some (m, it2) => (morsels_from fuel it2).map (m :: ·)

/-- `StorageEngine::morsels` composed with collecting the iterator. -/
def morsels (s : StorageEngine) (fuel : Nat) : Option (List RBatch) :=
  morsels_from fuel (MorselIterator.new s.batches)

/-- Total row count of a list of batches. -/
def total_rows (batches : List RBatch) : Nat :=
  (batches.map RBatch.num_rows).sum

/-- Rows remaining in front of an iterator state: the tail of the current
batch plus all later batches. -/
def state_rem (it : MorselIterator) : Nat :=
  (((it.batches[it.current_batch_idx]?).map RBatch.num_rows).getD 0 - it.current_offset) +
    total_rows (it.batches.drop (it.current_batch_idx + 1))

/-! ### Morsel iterator lemmas -/

/-- Splitting the total row count of a dropped suffix at its head. -/
theorem total_rows_drop (l : List RBatch) (i : Nat) :
    total_rows (l.drop i) = ((l[i]?.map RBatch.num_rows).getD 0) + total_rows (l.drop (i + 1)) := by
  rcases h : l[i]? with _ | b
  · have hle : l.length ≤ i := by simpa using h
    rw [List.drop_eq_nil_of_le hle, List.drop_eq_nil_of_le (by omega)]
    simp [total_rows]
  · have hi : i < l.length := by
      by_contra hc
      rw [List.getElem?_eq_none (by omega)] at h
      exact Option.noConfusion h
    rw [List.drop_eq_getElem_cons hi]
    rw [List.getElem?_eq_getElem hi] at h
    simp only [Option.some.injEq] at h
    simp [total_rows, h]

/-- Rewriting equation for a finished `morsels_from` step. -/
theorem morsels_from_succ_none {fuel : Nat} {it : MorselIterator} (h : it.next = none) :
    morsels_from (fuel + 1) it = some [] := by
  rw [morsels_from, h]

/-- Rewriting equation for a yielding `morsels_from` step. -/
theorem morsels_from_succ_some {fuel : Nat} {it : MorselIterator} {m : RBatch}
    {it2 : MorselIterator} (h : it.next = some (m, it2)) :
    morsels_from (fuel + 1) it = (morsels_from fuel it2).map (m :: ·) := by
  rw [morsels_from, h]

/-- Remaining rows after advancing to the next batch. -/
theorem state_rem_skip (it : MorselIterator) :
    state_rem { it with current_batch_idx := it.current_batch_idx + 1, current_offset := 0 } =
      total_rows (it.batches.drop (it.current_batch_idx + 1)) := by
  unfold state_rem
  dsimp only
  rw [total_rows_drop it.batches (it.current_batch_idx + 1)]
  omega

/-- One yield of `next_aux` does not touch the batch list, the morsel size,
and produces an in-bounds slice of one stored batch. -/
theorem next_aux_spec (fuel : Nat) (it : MorselIterator) (m : RBatch) (it2 : MorselIterator)
    (h : MorselIterator.next_aux fuel it = some (m, it2)) :
    it2.batches = it.batches ∧ it2.morsel_rows = it.morsel_rows ∧
    ∃ (b : RBatch) (off : Nat), (∃ i : Nat, it.batches[i]? = some b) ∧ off < b.num_rows ∧
      m = b.slice off (min (b.num_rows - off) it.morsel_rows) := by
  induction fuel generalizing it with
  | zero => simp [MorselIterator.next_aux] at h
  | succ fuel ih =>
    rw [MorselIterator.next_aux] at h
    split at h
    · exact Option.noConfusion h
    · rename_i current_batch hget
      split at h
      · have := ih _ h
        simpa using this
      · rename_i hoff
        simp only [Option.some.injEq, Prod.mk.injEq] at h
        obtain ⟨hm, hit2⟩ := h
        refine ⟨by rw [← hit2], by rw [← hit2], current_batch, it.current_offset,
          ⟨it.current_batch_idx, hget⟩, by omega, hm.symm⟩

/-- `next` preserves the batch list and the morsel size. -/
theorem next_preserves {it : MorselIterator} {m : RBatch} {it2 : MorselIterator}
    (h : it.next = some (m, it2)) :
    it2.batches = it.batches ∧ it2.morsel_rows = it.morsel_rows :=
  ⟨(next_aux_spec _ _ _ _ h).1, (next_aux_spec _ _ _ _ h).2.1⟩

/-- When `next` yields nothing, no rows remain in front of the state. -/
theorem next_aux_none (fuel : Nat) (it : MorselIterator)
    (hfuel : it.batches.length - it.current_batch_idx ≤ fuel)
    (h : MorselIterator.next_aux fuel it = none) : state_rem it = 0 := by
  induction fuel generalizing it with
  | zero =>
    have hidx : it.batches.length ≤ it.current_batch_idx := by omega
    unfold state_rem
    rw [List.getElem?_eq_none (by omega), List.drop_eq_nil_of_le (by omega)]
    simp [total_rows]
  | succ fuel ih =>
    rw [MorselIterator.next_aux] at h
    split at h
    · rename_i hget
      have hidx : it.batches.length ≤ it.current_batch_idx := by
        by_contra hc
        rw [List.getElem?_eq_getElem (by omega)] at hget
        exact Option.noConfusion hget
      unfold state_rem
      rw [hget, List.drop_eq_nil_of_le (by omega)]
      simp [total_rows]
    · rename_i current_batch hget
      split at h
      · rename_i hoff
        have h1 := ih _ (by dsimp only; omega) h
        rw [state_rem_skip] at h1
        unfold state_rem
        rw [hget]
        simp only [Option.map_some', Option.getD_some]
        omega
      · exact Option.noConfusion h

/-- Accounting for one yield: the yielded rows plus the remaining rows of
the next state equal the remaining rows of the previous state; a yield
only happens when rows remain; and when the morsel size is positive,
every yield is nonempty. -/
theorem next_aux_rem (fuel : Nat) (it : MorselIterator) (m : RBatch) (it2 : MorselIterator)
    (h : MorselIterator.next_aux fuel it = some (m, it2)) :
    state_rem it = m.num_rows + state_rem it2 ∧ 0 < state_rem it ∧
    (0 < it.morsel_rows → 0 < m.num_rows) := by
  induction fuel generalizing it with
  | zero => simp [MorselIterator.next_aux] at h
  | succ fuel ih =>
    rw [MorselIterator.next_aux] at h
    split at h
    · exact Option.noConfusion h
    · rename_i current_batch hget
      split at h
      · rename_i hoff
        obtain ⟨hacc, hpos, hmr⟩ := ih _ h
        have hskip : state_rem it = state_rem
            { it with current_batch_idx := it.current_batch_idx + 1, current_offset := 0 } := by
          rw [state_rem_skip]
          unfold state_rem
          rw [hget]
          simp only [Option.map_some', Option.getD_some]
          omega
        exact ⟨by rw [hskip]; exact hacc, by rw [hskip]; exact hpos, hmr⟩
      · rename_i hoff
        simp only [Option.some.injEq, Prod.mk.injEq] at h
        obtain ⟨hm, hit2⟩ := h
        subst hit2
        have hrows : m.num_rows =
            min (current_batch.num_rows - it.current_offset) it.morsel_rows := by
          rw [← hm]
          rfl
        refine ⟨?_, ?_, ?_⟩
        · unfold state_rem
          dsimp only
          rw [hget, hrows]
          simp only [Option.map_some', Option.getD_some]
          omega
        · unfold state_rem
          rw [hget]
          simp only [Option.map_some', Option.getD_some]
          omega
        · intro hmrpos
          rw [hrows]
          omega

/-- Extra fuel does not change a completed run. -/
theorem morsels_from_mono (f g : Nat) (it : MorselIterator) (ms : List RBatch)
    (h : morsels_from f it = some ms) (hfg : f ≤ g) : morsels_from g it = some ms := by
  induction f generalizing g it ms with
  | zero => simp [morsels_from] at h
  | succ f ih =>
    rcases g with _ | g
    · omega
    cases hnext : it.next with
    | none =>
      rw [morsels_from_succ_none hnext] at h ⊢
      exact h
    | some p =>
      obtain ⟨m, it2⟩ := p
      rw [morsels_from_succ_some hnext] at h ⊢
      cases hrec : morsels_from f it2 with
      | none => rw [hrec] at h; simp at h
      | some ms2 =>
        rw [hrec] at h
        rw [ih _ _ _ hrec (by omega)]
        exact h

/-- Totality of the iteration from any state with positive morsel size (or
no remaining rows): `state_rem it + 1` rounds of fuel complete the run and
the yielded morsels carry exactly the remaining rows. -/
theorem morsels_from_total (n : Nat) : ∀ it : MorselIterator, state_rem it ≤ n →
    (0 < it.morsel_rows ∨ state_rem it = 0) →
    ∃ ms, morsels_from (state_rem it + 1) it = some ms ∧
      (ms.map RBatch.num_rows).sum = state_rem it := by
  induction n with
  | zero =>
    intro it hle _
    have h0 : state_rem it = 0 := by omega
    cases hnext : it.next with
    | none =>
      exact ⟨[], by rw [h0]; exact morsels_from_succ_none hnext, by simp [h0]⟩
    | some p =>
      obtain ⟨m, it2⟩ := p
      have := next_aux_rem _ _ _ _ hnext
      omega
  | succ n ih =>
    intro it hle hpos
    cases hnext : it.next with
    | none =>
      have h0 : state_rem it = 0 := next_aux_none _ _ (le_refl _) hnext
      exact ⟨[], by rw [h0]; exact morsels_from_succ_none hnext, by simp [h0]⟩
    | some p =>
      obtain ⟨m, it2⟩ := p
      obtain ⟨hacc, hpos0, hpos2⟩ := next_aux_rem _ _ _ _ hnext
      rcases hpos with hmrpos | h0
      · have hm1 : 0 < m.num_rows := hpos2 hmrpos
        have hmr2 : 0 < it2.morsel_rows := by
          rw [(next_preserves hnext).2]
          exact hmrpos
        obtain ⟨ms2, hrun2, hsum2⟩ := ih it2 (by omega) (Or.inl hmr2)
        refine ⟨m :: ms2, ?_, by simp [hsum2]; omega⟩
        rw [morsels_from_succ_some hnext]
        rw [morsels_from_mono _ _ _ _ hrun2 (by omega)]
        rfl
      · omega

/-- Remaining rows of a fresh iterator: the whole store. -/
theorem state_rem_new (batches : List RBatch) :
    state_rem (MorselIterator.new batches) = total_rows batches := by
  unfold state_rem MorselIterator.new
  dsimp only
  have h := total_rows_drop batches 0
  rw [List.drop_zero] at h
  omega

/-! ### C1: concrete stores -/

/-- First batch of the C1 counterexample store: zero rows. -/
def batch_c1_a : RBatch := ⟨[("id", .i32 [])], 0, 0⟩

/-- Second batch of the C1 counterexample store: one row. -/
def batch_c1_b : RBatch := ⟨[("id", .i32 [some 1])], 1, 4⟩

/-- A store whose first batch is empty and whose second batch is not:
`calculate_morsel_rows` of the first batch is `0`, so the iterator yields
empty morsels forever. -/
def store_c1 : StorageEngine := ⟨[batch_c1_a, batch_c1_b]⟩

/-- The self-looping iterator state reached on `store_c1`. -/
def it_c1 : MorselIterator := ⟨[batch_c1_a, batch_c1_b], 1, 0, 0⟩

/-- The empty morsel yielded forever on `store_c1`. -/
def morsel_c1 : RBatch := batch_c1_b.slice 0 0

theorem it_c1_next : it_c1.next = some (morsel_c1, it_c1) := by decide

theorem it_c1_loop : ∀ fuel, morsels_from fuel it_c1 = none := by
  intro fuel
  induction fuel with
  | zero => rfl
  | succ fuel ih =>
    rw [morsels_from_succ_some it_c1_next, ih]
    rfl

/-- C1 (counterexample): on the two-batch store whose first batch has zero
rows, `morsels()` never terminates: it yields the empty morsel of the
second batch forever, so the sequence is not finite and the morsel row
count never reaches the store row count (which is 1).  This also refutes
the per-batch sizing: `rows_per_morsel` is computed once, from the first
batch only. -/
theorem C1_counterexample :
    MorselIterator.next it_c1 = some (morsel_c1, it_c1) ∧
    morsel_c1.num_rows = 0 ∧
    total_rows store_c1.batches = 1 ∧
    ¬ ∃ fuel ms, morsels store_c1 fuel = some ms := by
  refine ⟨by decide, by decide, by decide, ?_⟩
  rintro ⟨fuel, ms, h⟩
  rcases fuel with _ | fuel
  · simp [morsels, morsels_from] at h
  · rw [morsels] at h
    have hnext : (MorselIterator.new store_c1.batches).next = some (morsel_c1, it_c1) := by
      decide
    rw [morsels_from_succ_some hnext, it_c1_loop fuel] at h
    simp at h

/-- C1 (amended): whenever the morsel size computed from the *first* batch
is positive — or every batch is empty — the sequence produced by
`morsels()` is finite and the sum of row counts over all yielded morsels
equals the sum of row counts over the store's batches.  (`rows_per_morsel`
is computed once from the first batch as `MORSEL_BYTES / bytes_per_row`
with `bytes_per_row = batch_bytes / batch_rows`, an empty first batch
giving `0` and `bytes_per_row = 0` giving the first batch's row count.) -/
theorem C1_morsel_totality (s : StorageEngine)
    (h : 0 < (MorselIterator.new s.batches).morsel_rows ∨ ∀ b ∈ s.batches, b.num_rows = 0) :
    ∃ ms, morsels s (total_rows s.batches + 1) = some ms ∧
      (ms.map RBatch.num_rows).sum = total_rows s.batches := by
  have hrem := state_rem_new s.batches
  have h2 : 0 < (MorselIterator.new s.batches).morsel_rows ∨
      state_rem (MorselIterator.new s.batches) = 0 := by
    rcases h with h | h
    · exact Or.inl h
    · refine Or.inr ?_
      rw [hrem]
      unfold total_rows
      rw [List.sum_eq_zero]
      intro x hx
      simp only [List.mem_map] at hx
      obtain ⟨b, hb, hxb⟩ := hx
      rw [← hxb]
      exact h b hb
  obtain ⟨ms, hrun, hsum⟩ := morsels_from_total _ _ (le_refl _) h2
  rw [hrem] at hrun hsum
  exact ⟨ms, hrun, hsum⟩

/-- Store used by the positive witnesses: one batch, two rows, 8 bytes. -/
def store_w1 : StorageEngine := ⟨[⟨[("id", .i32 [some 1, some 2])], 2, 8⟩]⟩

/-- Witness for `C1_morsel_totality` on `store_w1`. -/
theorem C1_morsel_totality_witness :
    0 < (MorselIterator.new store_w1.batches).morsel_rows ∧
    ∃ ms, morsels store_w1 (total_rows store_w1.batches + 1) = some ms ∧
      (ms.map RBatch.num_rows).sum = total_rows store_w1.batches :=
  ⟨by decide, C1_morsel_totality store_w1 (Or.inl (by decide))⟩

/-! ### C2: morsel bound -/

/-- Reachability of iterator states by repeated `next`. -/
inductive MorselReach : MorselIterator → MorselIterator → Prop where
  | refl (it : MorselIterator) : MorselReach it it
  | step {a b : MorselIterator} {m : RBatch} {c : MorselIterator} :
      MorselReach a b → b.next = some (m, c) → MorselReach a c

/-- Bytes-per-row of the first batch of a store (0 for an empty store). -/
def first_bytes_per_row (batches : List RBatch) : Nat :=
  ((batches.head?.map fun b => b.mem_bytes / b.num_rows).getD 0)

theorem morsel_reach_inv {it0 it : MorselIterator} (h : MorselReach it0 it) :
    it.batches = it0.batches ∧ it.morsel_rows = it0.morsel_rows := by
  induction h with
  | refl => exact ⟨rfl, rfl⟩
  | step hr hnext ih =>
    have := next_preserves hnext
    exact ⟨this.1.trans ih.1, this.2.trans ih.2⟩

/-- C2 (amended): every morsel is a contiguous in-bounds row range of
exactly one stored batch; and when every non-empty batch of the store has
the same `bytes_per_row` as the first batch, every morsel's memory
footprint is at most `MORSEL_SIZE_BYTES`.  (The bound can fail when a
later batch has a larger `bytes_per_row` than the first, because
`morsel_rows` is computed from the first batch only; see the
counterexample.) -/
theorem C2_morsel_bound (s : StorageEngine)
    (hbpr : ∀ b ∈ s.batches, b.num_rows ≠ 0 →
      b.mem_bytes / b.num_rows = first_bytes_per_row s.batches)
    (it : MorselIterator) (m : RBatch) (it2 : MorselIterator)
    (hreach : MorselReach (MorselIterator.new s.batches) it)
    (hnext : it.next = some (m, it2)) :
    m.mem_bytes ≤ MORSEL_SIZE_BYTES ∧
    ∃ (b : RBatch) (off : Nat), b ∈ s.batches ∧ off + m.num_rows ≤ b.num_rows ∧
      m = b.slice off m.num_rows := by
  obtain ⟨hbatches, hmr⟩ := morsel_reach_inv hreach
  obtain ⟨-, -, b, off, ⟨i, hget0⟩, hoff, hm⟩ := next_aux_spec _ _ _ _ hnext
  rw [hbatches] at hget0
  have hget : s.batches[i]? = some b := hget0
  simp only [MorselIterator.new] at hmr
  have hi : i < s.batches.length := by
    by_contra hc
    rw [List.getElem?_eq_none (by omega)] at hget
    exact Option.noConfusion hget
  have hib : s.batches[i] = b := by
    rw [List.getElem?_eq_getElem hi] at hget
    exact Option.some.inj hget
  have hbmem : b ∈ s.batches := hib ▸ List.getElem_mem hi
  have hrows : m.num_rows = min (b.num_rows - off) it.morsel_rows := by
    rw [hm]
    rfl
  have hslice : m = b.slice off m.num_rows := by
    rw [hrows]
    exact hm
  have hbytes : m.mem_bytes = m.num_rows * (b.mem_bytes / b.num_rows) := by
    rw [hslice]
    rfl
  refine ⟨?_, b, off, hbmem, by omega, hslice⟩
  have hbne : b.num_rows ≠ 0 := by omega
  rw [hbytes, hbpr b hbmem hbne]
  rcases hhead : s.batches.head? with _ | ⟨h0⟩
  · rw [List.head?_eq_none_iff] at hhead
    rw [hhead] at hbmem
    simp at hbmem
  · have hmrval : it.morsel_rows = calculate_morsel_rows h0 := by
      rw [hmr, hhead]
      rfl
    unfold first_bytes_per_row
    rw [hhead]
    simp only [Option.map_some', Option.getD_some]
    by_cases h0rows : h0.num_rows = 0
    · have hmz : it.morsel_rows = 0 := by
        rw [hmrval]
        unfold calculate_morsel_rows
        rw [if_pos h0rows]
      have hm0 : m.num_rows = 0 := by omega
      rw [hm0]
      simp
    · by_cases h0bpr : h0.mem_bytes / h0.num_rows = 0
      · rw [h0bpr]
        simp
      · have hmrv : it.morsel_rows = MORSEL_SIZE_BYTES / (h0.mem_bytes / h0.num_rows) := by
          rw [hmrval]
          unfold calculate_morsel_rows
          rw [if_neg h0rows]
          simp only [if_neg h0bpr]
        calc m.num_rows * (h0.mem_bytes / h0.num_rows)
            ≤ (MORSEL_SIZE_BYTES / (h0.mem_bytes / h0.num_rows)) * (h0.mem_bytes / h0.num_rows) := by
              apply Nat.mul_le_mul_right
              omega
          _ ≤ MORSEL_SIZE_BYTES := Nat.div_mul_le_self _ _

/-- First morsel yielded on `store_w1`. -/
def morsel_w1 : RBatch := (⟨[("id", .i32 [some 1, some 2])], 2, 8⟩ : RBatch).slice 0 2

/-- Iterator state after the first yield on `store_w1`. -/
def it2_w1 : MorselIterator := ⟨store_w1.batches, 0, 2, 33554432⟩

/-- Witness for `C2_morsel_bound`: the first yield on `store_w1`. -/
theorem C2_morsel_bound_witness :
    morsel_w1.mem_bytes ≤ MORSEL_SIZE_BYTES ∧
    ∃ (b : RBatch) (off : Nat), b ∈ store_w1.batches ∧ off + morsel_w1.num_rows ≤ b.num_rows ∧
      morsel_w1 = b.slice off morsel_w1.num_rows :=
  C2_morsel_bound store_w1 (by decide) (MorselIterator.new store_w1.batches) morsel_w1 it2_w1
    (MorselReach.refl _) (by decide)

/-- First batch of the C2 counterexample store: small rows. -/
def batch_c2_a : RBatch := ⟨[("v", .i32 [some 1])], 1, 8⟩

/-- Second batch of the C2 counterexample store: two rows of 150 MB each. -/
def batch_c2_b : RBatch := ⟨[("v", .i32 [some 1, some 2])], 2, 300000000⟩

/-- Store whose second batch has a much larger `bytes_per_row` than its
first batch. -/
def store_c2 : StorageEngine := ⟨[batch_c2_a, batch_c2_b]⟩

/-- C2 (counterexample): on `store_c2` the iterator terminates and its
second morsel covers both 150 MB rows of the second batch, a memory
footprint of 300 MB, far above `MORSEL_SIZE_BYTES` (128 MiB) — because
`morsel_rows` was computed from the first batch's 8 bytes-per-row. -/
theorem C2_counterexample :
    morsels store_c2 4 = some [batch_c2_a.slice 0 1, batch_c2_b.slice 0 2] ∧
    (batch_c2_b.slice 0 2).num_rows = 2 ∧
    (batch_c2_b.slice 0 2).mem_bytes = 300000000 ∧
    MORSEL_SIZE_BYTES < (batch_c2_b.slice 0 2).mem_bytes := by
  refine ⟨by decide, by decide, by decide, by decide⟩

/-! ### Scaled-integer model of IEEE-754 binary32 / binary64 arithmetic -/

/-- Number of binary digits of `n`, by fuelled halving (the fuel 2200
covers every value arising from finite `f32`/`f64` data, whose scaled
magnitudes stay below `2 ^ 2200`). -/
def bitlen_go : Nat → Nat → Nat
  | 0, _ => 0
  | fuel + 1, n => if n = 0 then 0 else bitlen_go fuel (n / 2) + 1

/-- Number of binary digits of `n`. -/
def bitlen (n : Nat) : Nat := bitlen_go 2200 n

/-- Round a scaled integer to `bits` significant bits, ties to even:
IEEE-754 round-to-nearest-even on the scaled representation.  Values that
already fit in `bits` bits (including all subnormals) are exact. -/
def rnd_bits (bits : Nat) (x : Int) : Int :=
  let n := x.natAbs
  let b := bitlen n
  if b ≤ bits then x
  else
    let s := b - bits
    let q := n / 2 ^ s
    let r := n % 2 ^ s
    let half := 2 ^ (s - 1)
    let q2 : Nat :=
      if r < half then q
      else if half < r then q + 1
      else if q % 2 = 0 then q else q + 1
    (if x < 0 then -1 else 1) * (q2 * 2 ^ s : Nat)

/-- Round to binary32 precision (24 significant bits). -/
def rnd24 (x : Int) : Int := rnd_bits 24 x

/-- Round to binary64 precision (53 significant bits). -/
def rnd53 (x : Int) : Int := rnd_bits 53 x

/-- `f32` addition on values scaled by `2 ^ 149`. -/
def f32add (x y : Int) : Int := rnd24 (x + y)

/-- `f32` subtraction on values scaled by `2 ^ 149`. -/
def f32sub (x y : Int) : Int := rnd24 (x - y)

/-- `f64` addition on values scaled by `2 ^ 1074`. -/
def f64add (x y : Int) : Int := rnd53 (x + y)

/-- `f64` subtraction on values scaled by `2 ^ 1074`. -/
def f64sub (x y : Int) : Int := rnd53 (x - y)

/-- `f64` division by a count, used only by the `Avg` aggregate (modelled
as floor division followed by rounding; no theorem depends on `Avg`). -/
def f64_div_nat (x : Int) (n : Nat) : Int :=
  if n = 0 then 0 else rnd53 (x / (n : Int))

/-- Two's-complement wrap-around of `i32` arithmetic. -/
def wrap32 (x : Int) : Int := ((x + 2 ^ 31) % 2 ^ 32) - 2 ^ 31

/-- Two's-complement wrap-around of `i64` arithmetic. -/
def wrap64 (x : Int) : Int := ((x + 2 ^ 63) % 2 ^ 64) - 2 ^ 63

/-! ### Aggregation backends of the equivalence test suite
(`tests/backend_equivalence_tests.rs`) -/

/-- `ScalarBackend::sum` over `i32` (tests lines 52-54): a fold of
`i32::wrapping_add` starting from 0. -/
def scalar_sum_i32 (data : List Int) : Int :=
  data.foldl (fun acc x => wrap32 (acc + x)) 0

/-- `SimdBackend::sum` over `i32` delegates to the scalar backend. -/
def simd_sum_i32 (data : List Int) : Int := scalar_sum_i32 data

/-- `GpuBackend::sum` over `i32` delegates to the scalar backend. -/
def gpu_sum_i32 (data : List Int) : Int := scalar_sum_i32 data

/-- `ScalarBackend::sum` over `f32` (tests lines 83-100): Kahan
(compensated) summation; the state is `(sum, compensation)`.  The Rust
early exit to a naive sum on non-finite input is unreachable here because
the model represents finite values only. -/
def scalar_sum_f32 (data : List Int) : Int :=
  (data.foldl (fun st value =>
    let y := f32sub value st.2
    let t := f32add st.1 y
    (t, f32sub (f32sub t st.1) y)) ((0 : Int), (0 : Int))).1

/-- `SimdBackend::sum` over `f32`.  Modelled from the spec: the SIMD path
calls `trueno`'s `Vector::sum_kahan` (an external crate), which the spec
and the test suite describe as the same Kahan compensated summation. -/
def simd_sum_f32 (data : List Int) : Int :=
  (data.foldl (fun st value =>
    let y := f32sub value st.2
    let t := f32add st.1 y
    (t, f32sub (f32sub t st.1) y)) ((0 : Int), (0 : Int))).1

/-! ### Executor aggregation kernels (`src/query/executor.rs`) -/

/-- Aggregation functions of the query plan (`src/query/mod.rs`). -/
inductive AggregateFunction where
  | Sum
  | Avg
  | Count
  | Min
  | Max
  deriving DecidableEq, Repr

/-- `QueryExecutor::aggregate_i32` (executor lines 439-482).  `Sum` maps
each value through `i64::from` and accumulates as `i64` (wrap-around of
the 64-bit accumulator made explicit); `Avg` casts to `f64` (exact for
`i32`) and divides; `Min`/`Max` fall back to 0 on all-null input. -/
def aggregate_i32 (func : AggregateFunction) (vals : List (Option Int)) (num_rows : Nat) :
    ColData × DType :=
  match func with
  | .Sum => (.i64 [some (wrap64 (vals.filterMap id).sum)], .Int64)
  | .Avg =>
    let nonnull := vals.filterMap id
    let sum := nonnull.foldl (fun acc v => f64add acc (v * 2 ^ 1074)) 0
    let count := nonnull.length
    let avg := if 0 < count then f64_div_nat sum count else 0
    (.f64 [some avg], .Float64)
  | .Count => (.i64 [some (num_rows : Int)], .Int64)
  | .Min => (.i32 [some (((vals.filterMap id).min?).getD 0)], .Int32)
  | .Max => (.i32 [some (((vals.filterMap id).max?).getD 0)], .Int32)

/-- `QueryExecutor::aggregate_i64` (executor lines 489-532).  The `Avg`
cast `v as f64` rounds to 53 bits. -/
def aggregate_i64 (func : AggregateFunction) (vals : List (Option Int)) (num_rows : Nat) :
    ColData × DType :=
  match func with
  | .Sum => (.i64 [some (wrap64 (vals.filterMap id).sum)], .Int64)
  | .Avg =>
    let nonnull := vals.filterMap id
    let sum := nonnull.foldl (fun acc v => f64add acc (rnd53 (v * 2 ^ 1074))) 0
    let count := nonnull.length
    let avg := if 0 < count then f64_div_nat sum count else 0
    (.f64 [some avg], .Float64)
  | .Count => (.i64 [some (num_rows : Int)], .Int64)
  | .Min => (.i64 [some (((vals.filterMap id).min?).getD 0)], .Int64)
  | .Max => (.i64 [some (((vals.filterMap id).max?).getD 0)], .Int64)

/-- `QueryExecutor::aggregate_f32` (executor lines 539-582).  `Sum` is the
plain sequential `f32` iterator sum — not Kahan summation.  `Avg` casts to
`f64` (exact, scale change `2 ^ 925`) and sums in `f64`. -/
def aggregate_f32 (func : AggregateFunction) (vals : List (Option Int)) (num_rows : Nat) :
    ColData × DType :=
  match func with
  | .Sum => (.f32 [some ((vals.filterMap id).foldl f32add 0)], .Float32)
  | .Avg =>
    let nonnull := vals.filterMap id
    let sum := nonnull.foldl (fun acc v => f64add acc (v * 2 ^ 925)) 0
    let count := nonnull.length
    let avg := if 0 < count then f64_div_nat sum count else 0
    (.f64 [some avg], .Float64)
  | .Count => (.i64 [some (num_rows : Int)], .Int64)
  | .Min => (.f32 [some (((vals.filterMap id).min?).getD 0)], .Float32)
  | .Max => (.f32 [some (((vals.filterMap id).max?).getD 0)], .Float32)

/-- `QueryExecutor::aggregate_f64` (executor lines 589-632). -/
def aggregate_f64 (func : AggregateFunction) (vals : List (Option Int)) (num_rows : Nat) :
    ColData × DType :=
  match func with
  | .Sum => (.f64 [some ((vals.filterMap id).foldl f64add 0)], .Float64)
  | .Avg =>
    let nonnull := vals.filterMap id
    let sum := nonnull.foldl f64add 0
    let count := nonnull.length
    let avg := if 0 < count then f64_div_nat sum count else 0
    (.f64 [some avg], .Float64)
  | .Count => (.i64 [some (num_rows : Int)], .Int64)
  | .Min => (.f64 [some (((vals.filterMap id).min?).getD 0)], .Float64)
  | .Max => (.f64 [some (((vals.filterMap id).max?).getD 0)], .Float64)

/-! ### C5: integer Sum overflow -/

theorem wrap32_absorb (a b : Int) : wrap32 (wrap32 a + b) = wrap32 (a + b) := by
  unfold wrap32
  omega

theorem scalar_sum_i32_from (xs : List Int) :
    ∀ acc : Int, xs.foldl (fun a x => wrap32 (a + x)) (wrap32 acc) = wrap32 (acc + xs.sum) := by
  induction xs with
  | nil => intro acc; simp
  | cons x xs ih =>
    intro acc
    simp only [List.foldl_cons, List.sum_cons]
    rw [wrap32_absorb, ih (acc + x)]
    ring_nf

/-- C5 (counterexample): the executor's SQL `SUM` over an `Int32` column
accumulates into `i64` and yields `2 ^ 31 = 2147483648` (result type
`Int64`) on the column `[i32::MAX, 1]` — not the wrapped `i32::MIN`. -/
theorem C5_counterexample :
    aggregate_i32 .Sum [some 2147483647, some 1] 2 = (.i64 [some 2147483648], .Int64) ∧
    (2147483648 : Int) ≠ (-2147483648 : Int) :=
  ⟨by decide, by decide⟩

/-- C5 (amended): the three test-suite backends (scalar, SIMD, GPU) use
wrapping 32-bit addition — the sum is the wrap of the exact sum modulo
`2 ^ 32`, so `[i32::MAX, 1]` gives `i32::MIN` bit-exactly on all three —
while the executor's SQL `Sum` over `Int32` widens to `i64`
(`Sum(I32) → I64`) and returns the unwrapped `2 ^ 31`. -/
theorem C5_integer_sum_wrapping :
    (∀ xs : List Int, scalar_sum_i32 xs = wrap32 xs.sum) ∧
    (∀ xs : List Int, simd_sum_i32 xs = scalar_sum_i32 xs ∧ gpu_sum_i32 xs = scalar_sum_i32 xs) ∧
    scalar_sum_i32 [2147483647, 1] = -2147483648 ∧
    simd_sum_i32 [2147483647, 1] = -2147483648 ∧
    gpu_sum_i32 [2147483647, 1] = -2147483648 ∧
    aggregate_i32 .Sum [some 2147483647, some 1] 2 = (.i64 [some 2147483648], .Int64) := by
  refine ⟨?_, fun xs => ⟨rfl, rfl⟩, by decide, by decide, by decide, by decide⟩
  intro xs
  have h := scalar_sum_i32_from xs 0
  have h0 : wrap32 0 = 0 := by decide
  rw [h0] at h
  unfold scalar_sum_i32
  rw [h]
  ring_nf

/-! ### C6: float Sum and Kahan summation -/

/-- The spec's Kahan scenario column `[1e10, 1.0, -1e10, 2.0, 3.0]` as
exactly-representable `f32` values scaled by `2 ^ 149`
(`1e10 = 9765625 * 2 ^ 10` has 24 significant bits). -/
def c6_column : List (Option Int) :=
  [some (10000000000 * 2 ^ 149), some (2 ^ 149), some (-(10000000000 * 2 ^ 149)),
   some (2 * 2 ^ 149), some (3 * 2 ^ 149)]

/-- The same values as a plain slice for the test-suite backends. -/
def c6_data : List Int :=
  [10000000000 * 2 ^ 149, 2 ^ 149, -(10000000000 * 2 ^ 149), 2 * 2 ^ 149, 3 * 2 ^ 149]

/-- A column separating naive summation from Kahan summation:
`[2^24, 1, 1]` in `f32`. -/
def c6_divergence_data : List Int := [16777216 * 2 ^ 149, 2 ^ 149, 2 ^ 149]

/-- C6 (counterexample): `SELECT SUM(v)` over the `f32` column
`[1e10, 1.0, -1e10, 2.0, 3.0]` produces 5.0, not 6.0 — and 5.0 is not
within `1e-5` of 6.0 (`|5 - 6| * 10^5 < 1` fails; values scaled by
`2 ^ 149`). -/
theorem C6_counterexample :
    aggregate_f32 .Sum c6_column 5 = (.f32 [some (5 * 2 ^ 149)], .Float32) ∧
    ¬ ((5 * 2 ^ 149 - 6 * 2 ^ 149 : Int).natAbs * 100000 < 2 ^ 149) :=
  ⟨by decide, by decide⟩

/-- C6 (amended): the executor's `SUM` over `f32` is a plain sequential
sum, not Kahan: on `[2^24, 1, 1]` it returns `2^24` where the test-suite
Kahan reference returns `2^24 + 2`.  On the spec's scenario column both
the naive executor sum and the Kahan reference (and the SIMD backend,
which implements the same compensated loop) return 5.0, because
`1e10 + 1.0` already rounds to `1e10` in `f32` before compensation can
record the loss; so the one-row result holds 5.0, within `1e-5` of 5.0
but not of the spec's 6.0. -/
theorem C6_float_sum :
    aggregate_f32 .Sum c6_column 5 = (.f32 [some (5 * 2 ^ 149)], .Float32) ∧
    scalar_sum_f32 c6_data = 5 * 2 ^ 149 ∧
    (∀ data : List Int, simd_sum_f32 data = scalar_sum_f32 data) ∧
    aggregate_f32 .Sum (c6_divergence_data.map some) 3 =
      (.f32 [some (16777216 * 2 ^ 149)], .Float32) ∧
    scalar_sum_f32 c6_divergence_data = 16777218 * 2 ^ 149 :=
  ⟨by decide, by decide, fun _ => rfl, by decide, by decide⟩

/-! ### Backend dispatcher (`src/backend/mod.rs`) -/

/-- Backend selection strategy (`src/lib.rs`). -/
inductive Backend where
  | CostBased
  | Gpu
  | Simd
  deriving DecidableEq, Repr

/-- `PCIe` Gen4 x16 bandwidth: 32 GB/s. -/
def PCIE_BANDWIDTH_GBPS : ℚ := 32

/-- Minimum data size for GPU consideration (10 MB). -/
def MIN_GPU_DATA_SIZE_BYTES : Nat := 10000000

/-- GPU compute throughput (conservative estimate: 100 GFLOP/s). -/
def GPU_THROUGHPUT_GFLOPS : ℚ := 100

/-- Transfer overhead multiplier (5x rule). -/
def TRANSFER_OVERHEAD_MULTIPLIER : ℚ := 5

/-- `BackendDispatcher::select` (backend lines 47-67).  The `f64`
arithmetic of the source is modelled with exact rationals: all quantities
involved are ratios of decimal literals, far from any `f64` rounding
boundary at the claimed inputs. -/
def BackendDispatcher.select (total_bytes : Nat) (estimated_flops : ℚ) : Backend :=
  if total_bytes < MIN_GPU_DATA_SIZE_BYTES then .Simd
  else
    let pcie_transfer_time_ms : ℚ :=
      ((total_bytes : ℚ) / (PCIE_BANDWIDTH_GBPS * 1000000000)) * 1000
    let estimated_gpu_compute_ms : ℚ :=
      (estimated_flops / (GPU_THROUGHPUT_GFLOPS * 1000000000)) * 1000
    if estimated_gpu_compute_ms > pcie_transfer_time_ms * TRANSFER_OVERHEAD_MULTIPLIER then .Gpu
    else .Simd

/-- `BackendDispatcher::arithmetic_intensity`. -/
def BackendDispatcher.arithmetic_intensity (total_flops : ℚ) (total_bytes : Nat) : ℚ :=
  total_flops / (total_bytes : ℚ)

/-- `BackendDispatcher::estimate_simple_aggregation_flops`. -/
def BackendDispatcher.estimate_simple_aggregation_flops (num_elements : Nat) : ℚ :=
  (num_elements : ℚ)

/-- `BackendDispatcher::estimate_group_by_flops`. -/
def BackendDispatcher.estimate_group_by_flops (num_elements : Nat) : ℚ :=
  (num_elements : ℚ) * 6

/-- `BackendDispatcher::estimate_filter_flops`. -/
def BackendDispatcher.estimate_filter_flops (num_elements : Nat) : ℚ :=
  (num_elements : ℚ) * 2

/-- `BackendDispatcher::estimate_join_flops`. -/
def BackendDispatcher.estimate_join_flops (left_size right_size : Nat) : ℚ :=
  ((left_size + right_size : Nat) : ℚ) * 5

theorem select_simd_of_small (b : Nat) (f : ℚ) (hb : b < 10000000) :
    BackendDispatcher.select b f = .Simd := by
  unfold BackendDispatcher.select MIN_GPU_DATA_SIZE_BYTES
  rw [if_pos hb]

theorem select_gpu_iff (b : Nat) (f : ℚ) (hb : 10000000 ≤ b) :
    BackendDispatcher.select b f = .Gpu ↔
      f / (100 * 1000000000) * 1000 > 5 * ((b : ℚ) / (32 * 1000000000) * 1000) := by
  unfold BackendDispatcher.select MIN_GPU_DATA_SIZE_BYTES GPU_THROUGHPUT_GFLOPS
    PCIE_BANDWIDTH_GBPS TRANSFER_OVERHEAD_MULTIPLIER
  rw [if_neg (by omega)]
  dsimp only
  split_ifs with hc
  · simp only [true_iff]
    calc 5 * ((b : ℚ) / (32 * 1000000000) * 1000)
        = (b : ℚ) / (32 * 1000000000) * 1000 * 5 := by ring
      _ < f / (100 * 1000000000) * 1000 := hc
  · constructor
    · intro hcon
      exact hcon.elim
    · intro hgt
      exact absurd (by linarith : (b : ℚ) / (32 * 1000000000) * 1000 * 5 <
        f / (100 * 1000000000) * 1000) hc

/-- C4: the dispatcher is a pure total function; `Simd` below 10 MB;
above, `Gpu` exactly when the estimated compute time exceeds five times
the transfer time; the two concrete spec scenarios; and raising flops at
fixed bytes never flips `Gpu` back to `Simd`. -/
theorem C4_dispatcher :
    (∀ (b : Nat) (f : ℚ), b < 10000000 → BackendDispatcher.select b f = .Simd) ∧
    (∀ (b : Nat) (f : ℚ), 10000000 ≤ b →
      (BackendDispatcher.select b f = .Gpu ↔
        f / (100 * 1000000000) * 1000 > 5 * ((b : ℚ) / (32 * 1000000000) * 1000))) ∧
    BackendDispatcher.select 1000000 (10 ^ 6 : ℚ) = .Simd ∧
    BackendDispatcher.select 1000000000 (10 ^ 11 : ℚ) = .Gpu ∧
    (∀ (b : Nat) (f g : ℚ), f ≤ g →
      BackendDispatcher.select b f = .Gpu → BackendDispatcher.select b g = .Gpu) := by
  refine ⟨fun b f hb => select_simd_of_small b f hb, fun b f hb => select_gpu_iff b f hb,
    select_simd_of_small _ _ (by norm_num), ?_, ?_⟩
  · rw [select_gpu_iff _ _ (by norm_num)]
    norm_num
  · intro b f g hfg hsel
    by_cases hb : b < 10000000
    · rw [select_simd_of_small b f hb] at hsel
      exact Backend.noConfusion hsel
    · rw [select_gpu_iff b f (by omega)] at hsel
      rw [select_gpu_iff b g (by omega)]
      have hmono : f / (100 * 1000000000) * 1000 ≤ g / (100 * 1000000000) * 1000 := by
        gcongr
      linarith

/-- Witness for `C4_dispatcher`: concrete selections. -/
theorem C4_dispatcher_witness :
    BackendDispatcher.select 5 0 = .Simd ∧
    BackendDispatcher.select 1000000000 (10 ^ 11 : ℚ) = .Gpu :=
  ⟨C4_dispatcher.1 5 0 (by norm_num),
   C4_dispatcher.2.2.2.2 1000000000 (10 ^ 11 : ℚ) (10 ^ 11 : ℚ) (le_refl _)
     C4_dispatcher.2.2.2.1⟩

/-! ### C7: update_row -/

/-- C7 (counterexample): `update_row` on a concrete store fails with a
`StorageError` — the crate's error enum has no `Unsupported` variant at
all, so the error kind named by the claim cannot occur. -/
theorem C7_counterexample :
    (update_row ⟨[]⟩ 0 ⟨[], 0, 0⟩).1 = .error (.StorageError update_row_msg) ∧
    Err.is_storage_error (.StorageError update_row_msg) = true ∧
    Err.is_invalid_input (.StorageError update_row_msg) = false :=
  ⟨rfl, rfl, rfl⟩

/-- C7 (amended): for every store and every arguments, `update_row`
unconditionally fails with a `StorageError` whose message says single-row
updates are not supported, and the store's batches are unchanged. -/
theorem C7_update_row_always_fails :
    ∀ (s : StorageEngine) (row_id : Nat) (values : RBatch),
      update_row s row_id values = (.error (.StorageError update_row_msg), s) :=
  fun _ _ _ => rfl

/-! ### C8: empty-SQL sentinel plan (`src/query/mod.rs`) -/

/-- Sort order direction of the query plan (`src/query/mod.rs`). -/
inductive OrderDirection where
  | Asc
  | Desc
  deriving DecidableEq, Repr

/-- Parsed SQL query plan (`src/query/mod.rs` lines 29-45). -/
structure QueryPlan where
  columns : List String
  table : String
  filter : Option String
  group_by : List String
  aggregations : List (AggregateFunction × String × Option String)
  order_by : List (String × OrderDirection)
  limit : Option Nat
  deriving DecidableEq, Repr

/-- The sentinel plan returned for empty input SQL (parser lines 111-121):
its projection is the single wildcard `"*"`, not the empty list. -/
def empty_query_plan : QueryPlan :=
  { columns := ["*"], table := "", filter := none, group_by := [],
    aggregations := [], order_by := [], limit := none }

/-- Rust `char::is_whitespace`: the Unicode `White_Space` property. -/
def rust_is_whitespace (c : Char) : Bool :=
  c == ' ' || c == '\t' || c == '\n' || c == '\x0b' || c == '\x0c' || c == '\r' ||
  c == '\u0085' || c == '\u00A0' || c == '\u1680' ||
  ('\u2000' ≤ c && c ≤ '\u200A') ||
  c == '\u2028' || c == '\u2029' || c == '\u202F' || c == '\u205F' || c == '\u3000'

/-- `QueryEngine::parse` (parser lines 109-143).  The guard
`sql.trim().is_empty()` holds exactly when every character is whitespace,
which is how it is modelled.  Beyond the guard the source hands the text
to the external `sqlparser` crate and converts its AST; that part is the
`parse_sql` parameter. -/
def parse (parse_sql : String → Except Err QueryPlan) (sql : String) :
    Except Err QueryPlan :=
  if sql.data.all rust_is_whitespace then .ok empty_query_plan
  else parse_sql sql

/-- A stand-in for the sqlparser-driven branch, used by concrete instances. -/
def dummy_parse_sql : String → Except Err QueryPlan :=
  fun _ => .error (.ParseError "SQL parse error: unused")

/-- C8 (counterexample): parsing the empty string succeeds but the
sentinel plan's projection is `["*"]` — the wildcard — not the empty
projection the claim states. -/
theorem C8_counterexample :
    parse dummy_parse_sql "" = .ok empty_query_plan ∧
    empty_query_plan.columns = ["*"] ∧
    (["*"] : List String) ≠ ([] : List String) :=
  ⟨rfl, rfl, by decide⟩

/-- C8 (amended): for every input SQL string consisting only of
whitespace, `parse` succeeds — whatever the downstream sqlparser branch
would do — and returns the sentinel plan whose projection is the single
wildcard `"*"`, whose table name is empty, with no filter, no group-by
columns, no aggregations, no order-by and no limit. -/
theorem C8_empty_sql_sentinel (parse_sql : String → Except Err QueryPlan) (sql : String)
    (h : sql.data.all rust_is_whitespace = true) :
    parse parse_sql sql = .ok
      { columns := ["*"], table := "", filter := none, group_by := [],
        aggregations := [], order_by := [], limit := none } := by
  unfold parse
  rw [if_pos h]
  rfl

/-- Witness for `C8_empty_sql_sentinel` at a whitespace-only string. -/
theorem C8_empty_sql_sentinel_witness :
    parse dummy_parse_sql " \t " = .ok
      { columns := ["*"], table := "", filter := none, group_by := [],
        aggregations := [], order_by := [], limit := none } :=
  C8_empty_sql_sentinel dummy_parse_sql " \t " (by decide)

/-! ### Top-K selection (`src/topk.rs`)

The Rust code keeps a bounded `BinaryHeap` of `(value, index)` pairs
ordered by value (`MinHeapItem` for `Descending`, `MaxHeapItem` for
`Ascending`), drains it and sorts the drained items by value in the
presentation order.  The heap is modelled by the sorted list of its
items, worst-retained-first under the Boolean relation `le` ("may stay
below"): `le a b = (a ≤ b)` for `Descending` (min-heap, smallest first),
`le a b = (b ≤ a)` for `Ascending` (max-heap, largest first).  Pushing is
`List.orderedInsert`; the drain-then-sort step is reversal.  Equal values
may come out in a different relative order than from the Rust heap;
`src/topk.rs` leaves tie-breaking unspecified, and no claim depends on
it. -/

/-- Sort order for Top-K selection (`src/topk.rs` lines 31-37). -/
inductive SortOrder where
  | Ascending
  | Descending
  deriving DecidableEq, Repr

/-- The heap ordering on `(value, index)` pairs: by value under `le`. -/
def hr (le : Int → Int → Bool) : (Int × Nat) → (Int × Nat) → Prop :=
  fun p q => le p.1 q.1 = true

instance hr_decidable (le : Int → Int → Bool) : DecidableRel (hr le) :=
  fun p q => inferInstanceAs (Decidable (le p.1 q.1 = true))

/-- One iteration of the bounded-heap loop of `select_top_k_*`
(`src/topk.rs` lines 242-256 and the three symmetric copies): push while
below capacity, otherwise replace the worst retained item exactly when
the new value beats it (`value > top.value` for `Descending`,
`value < top.value` for `Ascending` — both are `¬ le value top`). -/
def heap_step (le : Int → Int → Bool) (k : Nat) (h : List (Int × Nat)) (x : Int × Nat) :
    List (Int × Nat) :=
  if h.length < k then List.orderedInsert (hr le) x h
  else match h with
    | [] => []
    | top :: rest =>
      if le x.1 top.1 then top :: rest
      else List.orderedInsert (hr le) x rest

/-- The `for index in 0..array.len()` loop source: the non-null
`(value, index)` pairs in index order, starting at `i0`. -/
def enum_nonnull : Nat → List (Option Int) → List (Int × Nat)
  | _, [] => []
  | i, none :: rest => enum_nonnull (i + 1) rest
  | i, some v :: rest => (v, i) :: enum_nonnull (i + 1) rest

/-- The common body of `select_top_k_i32/_i64/_f32/_f64`: run the bounded
heap over all non-null values, then emit the retained indices in the
presentation order (best first = reverse of worst-first). -/
def select_top_k_core (le : Int → Int → Bool) (k : Nat) (vals : List (Option Int)) :
    List Nat :=
  (((enum_nonnull 0 vals).foldl (heap_step le k) []).reverse).map Prod.snd

/-- `Descending` keeps the largest values: min-heap, replace on
`value > top.value`. -/
def le_desc : Int → Int → Bool := fun a b => decide (a ≤ b)

/-- `Ascending` keeps the smallest values: max-heap, replace on
`value < top.value`. -/
def le_asc : Int → Int → Bool := fun a b => decide (b ≤ a)

/-- `select_top_k_i32` (`src/topk.rs` lines 236-287). -/
def select_top_k_i32 (vals : List (Option Int)) (k : Nat) (order : SortOrder) :
    Except Err (List Nat) :=
  match order with
  | .Descending => .ok (select_top_k_core le_desc k vals)
  | .Ascending => .ok (select_top_k_core le_asc k vals)

/-- `select_top_k_i64` (lines 291-332): same algorithm at `i64`. -/
def select_top_k_i64 (vals : List (Option Int)) (k : Nat) (order : SortOrder) :
    Except Err (List Nat) :=
  match order with
  | .Descending => .ok (select_top_k_core le_desc k vals)
  | .Ascending => .ok (select_top_k_core le_asc k vals)

/-- `select_top_k_f32` (lines 336-377): same algorithm; on the finite
values of the model `partial_cmp` is the total order of the scaled
integers. -/
def select_top_k_f32 (vals : List (Option Int)) (k : Nat) (order : SortOrder) :
    Except Err (List Nat) :=
  match order with
  | .Descending => .ok (select_top_k_core le_desc k vals)
  | .Ascending => .ok (select_top_k_core le_asc k vals)

/-- `select_top_k_f64` (lines 381-422). -/
def select_top_k_f64 (vals : List (Option Int)) (k : Nat) (order : SortOrder) :
    Except Err (List Nat) :=
  match order with
  | .Descending => .ok (select_top_k_core le_desc k vals)
  | .Ascending => .ok (select_top_k_core le_asc k vals)

/-- `select_top_k_indices` (lines 125-171): dispatch on the column type;
non-numeric columns are rejected with `InvalidInput`. -/
def select_top_k_indices (col : ColData) (k : Nat) (order : SortOrder) :
    Except Err (List Nat) :=
  match col with
  | .i32 vs => select_top_k_i32 vs k order
  | .i64 vs => select_top_k_i64 vs k order
  | .f32 vs => select_top_k_f32 vs k order
  | .f64 vs => select_top_k_f64 vs k order
  | .utf8 _ => .error (.InvalidInput "Top-K not supported for data type: Utf8")

/-- Row gather of one column (`array.value(idx)` for each index):
validity is ignored, a null or out-of-range slot yields the type's
default raw value, and the rebuilt column has no validity bitmap. -/
def ColData.take_indices (indices : List Nat) : ColData → ColData
  | .i32 vs => .i32 (indices.map fun idx => some ((vs.getD idx none).getD 0))
  | .i64 vs => .i64 (indices.map fun idx => some ((vs.getD idx none).getD 0))
  | .f32 vs => .f32 (indices.map fun idx => some ((vs.getD idx none).getD 0))
  | .f64 vs => .f64 (indices.map fun idx => some ((vs.getD idx none).getD 0))
  | .utf8 vs => .utf8 (indices.map fun idx => some ((vs.getD idx none).getD ""))

/-- `build_batch_from_indices` (lines 425-500): gather the selected rows
of every column.  All five supported column types are total in the model,
so the Rust error paths (downcast failure, unsupported type) cannot
arise; the footprint of the freshly allocated batch is not modelled. -/
def build_batch_from_indices (batch : RBatch) (indices : List Nat) : RBatch :=
  { cols := batch.cols.map fun c => (c.1, c.2.take_indices indices)
    num_rows := indices.length
    mem_bytes := 0 }

/-- Comparator used to model `arrow::compute::sort_to_indices` with
`SortOptions { descending, nulls_first: false }` on a numeric column:
order row indices by value (flipped when descending), nulls last. -/
def sort_le (vs : List (Option Int)) (descending : Bool) (i j : Nat) : Bool :=
  match vs.getD i none, vs.getD j none with
  | some a, some b => if descending then decide (b ≤ a) else decide (a ≤ b)
  | some _, none => true
  | none, some _ => false
  | none, none => true

/-- The string variant of `sort_le` for `Utf8` columns. -/
def sort_le_str (vs : List (Option String)) (descending : Bool) (i j : Nat) : Bool :=
  match vs.getD i none, vs.getD j none with
  | some a, some b => if descending then decide (b ≤ a) else decide (a ≤ b)
  | some _, none => true
  | none, some _ => false
  | none, none => true

/-- `sort_all_rows` (lines 503-533): full sort fallback for `k ≥ N`,
modelled as a stable sort of all row indices by the sort column. -/
def sort_all_rows (batch : RBatch) (column_index : Nat) (order : SortOrder) : RBatch :=
  let descending : Bool := order = SortOrder.Descending
  let indices :=
    match (batch.cols.getD column_index ("", .i32 [])).2 with
    | .i32 vs => (List.range vs.length).mergeSort (sort_le vs descending)
    | .i64 vs => (List.range vs.length).mergeSort (sort_le vs descending)
    | .f32 vs => (List.range vs.length).mergeSort (sort_le vs descending)
    | .f64 vs => (List.range vs.length).mergeSort (sort_le vs descending)
    | .utf8 vs => (List.range vs.length).mergeSort (sort_le_str vs descending)
  build_batch_from_indices batch indices

/-- `RecordBatch::top_k` (`src/topk.rs` lines 93-118): reject `k = 0` and
out-of-range column indices with `InvalidInput`; degrade to a full sort
when `k ≥ num_rows`; otherwise run the bounded-heap selection and gather
the selected rows. -/
def top_k (b : RBatch) (column_index k : Nat) (order : SortOrder) : Except Err RBatch :=
  if k = 0 then .error (.InvalidInput "k must be greater than 0")
  else if column_index ≥ b.cols.length then
    .error (.InvalidInput ("Column index " ++ toString column_index ++
      " out of bounds (batch has " ++ toString b.cols.length ++ " columns)"))
  else if k ≥ b.num_rows then .ok (sort_all_rows b column_index order)
  else
    match select_top_k_indices (b.cols.getD column_index ("", .i32 [])).2 k order with
    | .error e => .error e
    | .ok indices => .ok (build_batch_from_indices b indices)

/-! ### Top-K: bounded-heap invariant -/

/-- Invariant of the bounded-heap loop relative to the multiset `U` of
values seen so far: the heap is sorted worst-first, its values form a
sub-multiset of `U` of size `min |U| k`, and every value dropped so far
is `le` every retained value. -/
def heap_inv (le : Int → Int → Bool) (k : Nat) (U : Multiset Int)
    (h : List (Int × Nat)) : Prop :=
  List.Sorted (hr le) h ∧
  (↑(h.map Prod.fst) : Multiset Int) ≤ U ∧
  h.length = min (Multiset.card U) k ∧
  (∀ y ∈ U - (↑(h.map Prod.fst) : Multiset Int), ∀ x ∈ h.map Prod.fst, le y x = true)

theorem heap_inv_empty (le : Int → Int → Bool) (k : Nat) : heap_inv le k 0 [] := by
  refine ⟨List.sorted_nil, ?_, by simp, ?_⟩
  · simp
  · intro y hy
    simp at hy

theorem heap_step_inv (le : Int → Int → Bool)
    (htot : ∀ a b : Int, le a b = true ∨ le b a = true)
    (htrans : ∀ a b c : Int, le a b = true → le b c = true → le a c = true)
    {k : Nat} (hk : 0 < k) {U : Multiset Int} {h : List (Int × Nat)}
    (hinv : heap_inv le k U h) (v : Int) (i : Nat) :
    heap_inv le k (v ::ₘ U) (heap_step le k h (v, i)) := by
  haveI : IsTotal (Int × Nat) (hr le) := ⟨fun p q => htot p.1 q.1⟩
  haveI : IsTrans (Int × Nat) (hr le) := ⟨fun p q r hpq hqr => htrans _ _ _ hpq hqr⟩
  obtain ⟨hsort, hsub, hlen, hdrop⟩ := hinv
  have hcoe : ∀ (l : List (Int × Nat)) (x : Int × Nat),
      (↑((List.orderedInsert (hr le) x l).map Prod.fst) : Multiset Int) =
        x.1 ::ₘ ↑(l.map Prod.fst) := by
    intro l x
    have hperm : List.Perm ((List.orderedInsert (hr le) x l).map Prod.fst)
        (((x :: l)).map Prod.fst) :=
      (List.perm_orderedInsert (hr le) x l).map Prod.fst
    exact Multiset.coe_eq_coe.mpr hperm
  unfold heap_step
  split_ifs with hlt
  · -- below capacity: push
    have hcardU : Multiset.card U = h.length := by
      rcases Nat.le_total (Multiset.card U) k with hle | hle
      · omega
      · omega
    have hfull : (↑(h.map Prod.fst) : Multiset Int) = U := by
      apply Multiset.eq_of_le_of_card_le hsub
      simp [hcardU]
    refine ⟨List.Sorted.orderedInsert _ _ hsort, ?_, ?_, ?_⟩
    · rw [hcoe]
      rw [hfull]
    · have : (List.orderedInsert (hr le) (v, i) h).length = h.length + 1 :=
        ((List.perm_orderedInsert (hr le) (v, i) h).length_eq).trans rfl
      rw [this]
      simp only [Multiset.card_cons]
      omega
    · intro y hy
      rw [hcoe, hfull] at hy
      simp at hy
  · -- at capacity
    have hlenk : h.length = k := by omega
    have hcardk : k ≤ Multiset.card U := by omega
    cases h with
    | nil => simp at hlenk; omega
    | cons top rest =>
      have htoprest : ∀ x ∈ rest.map Prod.fst, le top.1 x = true := by
        intro x hx
        obtain ⟨q, hq, hqx⟩ := List.mem_map.mp hx
        have := List.rel_of_sorted_cons hsort q hq
        rw [← hqx]
        exact this
      have hvh : (↑((top :: rest).map Prod.fst) : Multiset Int) =
          top.1 ::ₘ ↑(rest.map Prod.fst) := rfl
      dsimp only
      split_ifs with hkeep
      · -- keep the heap
        refine ⟨hsort, le_trans hsub (Multiset.le_cons_self U v), by
          simp only [Multiset.card_cons]; omega, ?_⟩
        have hsubU : (↑((top :: rest).map Prod.fst) : Multiset Int) ≤ U := hsub
        intro y hy x hx
        rw [Multiset.cons_sub_of_le v hsubU] at hy
        rcases Multiset.mem_cons.mp hy with hyv | hyD
        · subst hyv
          rcases List.mem_cons.mp hx with hxt | hxr
          · rw [hxt]
            exact hkeep
          · exact htrans _ _ _ hkeep (htoprest x hxr)
        · exact hdrop y hyD x hx
      · -- replace the worst retained item
        have hrestsort : List.Sorted (hr le) rest := hsort.of_cons
        have hrestle : (↑(rest.map Prod.fst) : Multiset Int) ≤ U :=
          le_trans (by rw [hvh]; exact Multiset.le_cons_self _ _) hsub
        have htopv : le top.1 v = true := by
          rcases htot v top.1 with hvt | htv
          · exact absurd hvt hkeep
          · exact htv
        refine ⟨List.Sorted.orderedInsert _ _ hrestsort, ?_, ?_, ?_⟩
        · rw [hcoe]
          exact Multiset.cons_le_cons v hrestle
        · have : (List.orderedInsert (hr le) (v, i) rest).length = rest.length + 1 :=
            ((List.perm_orderedInsert (hr le) (v, i) rest).length_eq).trans rfl
          rw [this]
          simp only [Multiset.card_cons]
          simp at hlenk
          omega
        · intro y hy x hx
          rw [hcoe] at hy
          have hyD : y ∈ (U - ↑(rest.map Prod.fst)) := by
            have : (v ::ₘ U) - (v ::ₘ ↑(rest.map Prod.fst)) = U - ↑(rest.map Prod.fst) := by
              rw [Multiset.sub_cons]
              simp
            rw [this] at hy
            exact hy
          have hyDsplit : y ∈ (U - ↑((top :: rest).map Prod.fst)) + ({top.1} : Multiset Int) := by
            have h1 : (↑(rest.map Prod.fst) : Multiset Int) ≤ ↑((top :: rest).map Prod.fst) := by
              rw [hvh]
              exact Multiset.le_cons_self _ _
            have h2 : U - ↑(rest.map Prod.fst) =
                (U - ↑((top :: rest).map Prod.fst)) +
                  (↑((top :: rest).map Prod.fst) - ↑(rest.map Prod.fst)) :=
              (tsub_add_tsub_cancel hsub h1).symm
            have h3 : (↑((top :: rest).map Prod.fst) : Multiset Int) - ↑(rest.map Prod.fst) =
                {top.1} := by
              rw [hvh]
              have : top.1 ::ₘ (↑(rest.map Prod.fst) : Multiset Int) =
                  ↑(rest.map Prod.fst) + {top.1} := by
                rw [add_comm, Multiset.singleton_add]
              rw [this, add_tsub_cancel_left]
            rw [h2, h3] at hyD
            exact hyD
          have hxcases : x = v ∨ x ∈ rest.map Prod.fst := by
            have hperm2 : List.Perm ((List.orderedInsert (hr le) (v, i) rest).map Prod.fst)
                (((v, i) :: rest).map Prod.fst) :=
              (List.perm_orderedInsert (hr le) (v, i) rest).map Prod.fst
            have hx2 := hperm2.mem_iff.mp hx
            simpa using hx2
          rcases Multiset.mem_add.mp hyDsplit with hyOld | hyTop
          · have hyOld2 := hdrop y hyOld
            rcases hxcases with hxv | hxr
            · subst hxv
              exact htrans _ _ _ (hyOld2 top.1 (List.mem_cons_self _ _)) htopv
            · exact hyOld2 x (List.mem_cons_of_mem _ hxr)
          · have hytop : y = top.1 := Multiset.mem_singleton.mp hyTop
            subst hytop
            rcases hxcases with hxv | hxr
            · subst hxv
              exact htopv
            · exact htoprest x hxr

theorem heap_fold_inv (le : Int → Int → Bool)
    (htot : ∀ a b : Int, le a b = true ∨ le b a = true)
    (htrans : ∀ a b c : Int, le a b = true → le b c = true → le a c = true)
    {k : Nat} (hk : 0 < k) :
    ∀ (items : List (Int × Nat)) (U : Multiset Int) (h : List (Int × Nat)),
      heap_inv le k U h →
      heap_inv le k (U + ↑(items.map Prod.fst)) (items.foldl (heap_step le k) h) := by
  intro items
  induction items with
  | nil =>
    intro U h hinv
    simpa using hinv
  | cons x xs ih =>
    intro U h hinv
    have hstep := heap_step_inv le htot htrans hk hinv x.1 x.2
    have hrec := ih (x.1 ::ₘ U) (heap_step le k h (x.1, x.2)) hstep
    have hU : (x.1 ::ₘ U) + ↑(xs.map Prod.fst) = U + ↑((x :: xs).map Prod.fst) := by
      simp only [List.map_cons]
      rw [← Multiset.cons_coe, ← Multiset.singleton_add, ← Multiset.singleton_add]
      rw [← add_assoc, add_comm U {x.1}, add_assoc]
    rw [hU] at hrec
    simpa using hrec

theorem heap_step_mem (le : Int → Int → Bool) (k : Nat) (h : List (Int × Nat))
    (x p : Int × Nat) (hp : p ∈ heap_step le k h x) : p ∈ h ∨ p = x := by
  unfold heap_step at hp
  split_ifs at hp with hlt
  · have := (List.perm_orderedInsert (hr le) x h).mem_iff.mp hp
    rcases List.mem_cons.mp this with hpx | hph
    · exact Or.inr hpx
    · exact Or.inl hph
  · cases h with
    | nil => simp at hp
    | cons top rest =>
      dsimp only at hp
      split_ifs at hp with hkeep
      · exact Or.inl hp
      · have := (List.perm_orderedInsert (hr le) x rest).mem_iff.mp hp
        rcases List.mem_cons.mp this with hpx | hph
        · exact Or.inr hpx
        · exact Or.inl (List.mem_cons_of_mem _ hph)

theorem heap_fold_mem (le : Int → Int → Bool) (k : Nat) :
    ∀ (items : List (Int × Nat)) (h : List (Int × Nat)) (p : Int × Nat),
      p ∈ items.foldl (heap_step le k) h → p ∈ h ∨ p ∈ items := by
  intro items
  induction items with
  | nil =>
    intro h p hp
    exact Or.inl hp
  | cons x xs ih =>
    intro h p hp
    rcases ih (heap_step le k h x) p hp with hstep | hxs
    · rcases heap_step_mem le k h x p hstep with hh | hx
      · exact Or.inl hh
      · exact Or.inr (by rw [hx]; exact List.mem_cons_self _ _)
    · exact Or.inr (List.mem_cons_of_mem _ hxs)

/-! ### Top-K: the non-null enumeration -/

theorem enum_nonnull_map_fst :
    ∀ (vals : List (Option Int)) (i0 : Nat),
      (enum_nonnull i0 vals).map Prod.fst = vals.filterMap id := by
  intro vals
  induction vals with
  | nil => intro i0; rfl
  | cons v rest ih =>
    intro i0
    cases v with
    | none => simpa [enum_nonnull] using ih (i0 + 1)
    | some a => simpa [enum_nonnull] using ih (i0 + 1)

theorem enum_nonnull_getElem :
    ∀ (vals : List (Option Int)) (i0 : Nat) (p : Int × Nat),
      p ∈ enum_nonnull i0 vals → i0 ≤ p.2 ∧ vals[p.2 - i0]? = some (some p.1) := by
  intro vals
  induction vals with
  | nil =>
    intro i0 p hp
    simp [enum_nonnull] at hp
  | cons v rest ih =>
    intro i0 p hp
    cases v with
    | none =>
      rw [enum_nonnull] at hp
      obtain ⟨h1, h2⟩ := ih (i0 + 1) p hp
      refine ⟨by omega, ?_⟩
      have hsub : p.2 - i0 = (p.2 - (i0 + 1)) + 1 := by omega
      rw [hsub]
      simpa using h2
    | some a =>
      rw [enum_nonnull] at hp
      rcases List.mem_cons.mp hp with hpa | hptail
      · subst hpa
        simp
      · obtain ⟨h1, h2⟩ := ih (i0 + 1) p hptail
        refine ⟨by omega, ?_⟩
        have hsub : p.2 - i0 = (p.2 - (i0 + 1)) + 1 := by omega
        rw [hsub]
        simpa using h2

theorem filterMap_id_length_of_all_some :
    ∀ (vals : List (Option Int)), (∀ v ∈ vals, v ≠ none) →
      (vals.filterMap id).length = vals.length := by
  intro vals
  induction vals with
  | nil => intro _; rfl
  | cons v rest ih =>
    intro hall
    cases v with
    | none => exact absurd rfl (hall none (List.mem_cons_self _ _))
    | some a =>
      have ih2 := ih (fun w hw => hall w (List.mem_cons_of_mem _ hw))
      simp [ih2]

theorem filterMap_id_eq_map_of_all_some :
    ∀ (vals : List (Option Int)), (∀ v ∈ vals, v ≠ none) →
      vals.filterMap id = vals.map (fun o => o.getD 0) := by
  intro vals
  induction vals with
  | nil => intro _; rfl
  | cons v rest ih =>
    intro hall
    cases v with
    | none => exact absurd rfl (hall none (List.mem_cons_self _ _))
    | some a =>
      have ih2 := ih (fun w hw => hall w (List.mem_cons_of_mem _ hw))
      simp [ih2]

/-! ### Top-K: specification of the bounded-heap selection -/

theorem select_top_k_core_spec (le : Int → Int → Bool)
    (htot : ∀ a b : Int, le a b = true ∨ le b a = true)
    (htrans : ∀ a b c : Int, le a b = true → le b c = true → le a c = true)
    (k : Nat) (vals : List (Option Int)) (hk : 0 < k) :
    ∃ pairs : List (Int × Nat),
      select_top_k_core le k vals = pairs.map Prod.snd ∧
      pairs.length = min (vals.filterMap id).length k ∧
      List.Pairwise (fun p q : Int × Nat => le q.1 p.1 = true) pairs ∧
      (∀ p ∈ pairs, vals[p.2]? = some (some p.1)) ∧
      (↑(pairs.map Prod.fst) : Multiset Int) ≤ ↑(vals.filterMap id) ∧
      (∀ y ∈ (↑(vals.filterMap id) : Multiset Int) - ↑(pairs.map Prod.fst),
        ∀ x ∈ pairs.map Prod.fst, le y x = true) := by
  have hinv := heap_fold_inv le htot htrans hk (enum_nonnull 0 vals) 0 [] (heap_inv_empty le k)
  rw [enum_nonnull_map_fst vals 0] at hinv
  rw [zero_add] at hinv
  obtain ⟨hsort, hsub, hlen, hdrop⟩ := hinv
  set hf := (enum_nonnull 0 vals).foldl (heap_step le k) [] with hhf
  refine ⟨hf.reverse, ?_, ?_, ?_, ?_, ?_, ?_⟩
  · rfl
  · rw [List.length_reverse, hlen]
    simp
  · rw [List.pairwise_reverse]
    exact hsort
  · intro p hp
    have hp2 : p ∈ hf := List.mem_reverse.mp hp
    rcases heap_fold_mem le k _ _ p hp2 with hnil | hitem
    · simp at hnil
    · have := enum_nonnull_getElem vals 0 p hitem
      simpa using this.2
  · have hcoe : (hf.reverse.map Prod.fst : Multiset Int) = ↑(hf.map Prod.fst) :=
      Multiset.coe_eq_coe.mpr ((List.reverse_perm hf).map _)
    rw [hcoe]
    exact hsub
  · intro y hy x hx
    have hcoe : (hf.reverse.map Prod.fst : Multiset Int) = ↑(hf.map Prod.fst) :=
      Multiset.coe_eq_coe.mpr ((List.reverse_perm hf).map _)
    rw [hcoe] at hy
    have hx2 : x ∈ hf.map Prod.fst := ((List.reverse_perm hf).map Prod.fst).mem_iff.mp hx
    exact hdrop y hy x hx2

/-! ### Top-K: per-order and per-type glue -/

/-- The retention order of each `SortOrder`: for `Descending` a dropped
value is `≤` the retained values, for `Ascending` it is `≥`. -/
def order_le_fun : SortOrder → Int → Int → Bool
  | .Descending => le_desc
  | .Ascending => le_asc

theorem order_le_fun_total (order : SortOrder) :
    ∀ a b : Int, order_le_fun order a b = true ∨ order_le_fun order b a = true := by
  intro a b
  cases order with
  | Descending =>
    simp only [order_le_fun, le_desc, decide_eq_true_eq]
    exact Int.le_total a b
  | Ascending =>
    simp only [order_le_fun, le_asc, decide_eq_true_eq]
    exact Int.le_total b a

theorem order_le_fun_trans (order : SortOrder) :
    ∀ a b c : Int, order_le_fun order a b = true → order_le_fun order b c = true →
      order_le_fun order a c = true := by
  intro a b c hab hbc
  cases order with
  | Descending =>
    simp only [order_le_fun, le_desc, decide_eq_true_eq] at hab hbc ⊢
    omega
  | Ascending =>
    simp only [order_le_fun, le_asc, decide_eq_true_eq] at hab hbc ⊢
    omega

/-- The numeric payload of a column, when it has one. -/
def ColData.int_vals : ColData → Option (List (Option Int))
  | .i32 vs => some vs
  | .i64 vs => some vs
  | .f32 vs => some vs
  | .f64 vs => some vs
  | .utf8 _ => none

theorem select_top_k_indices_eq (col : ColData) (vals : List (Option Int))
    (hvals : col.int_vals = some vals) (k : Nat) (order : SortOrder) :
    select_top_k_indices col k order = .ok (select_top_k_core (order_le_fun order) k vals) := by
  cases col with
  | i32 vs =>
    simp only [ColData.int_vals, Option.some.injEq] at hvals
    subst hvals
    cases order <;> rfl
  | i64 vs =>
    simp only [ColData.int_vals, Option.some.injEq] at hvals
    subst hvals
    cases order <;> rfl
  | f32 vs =>
    simp only [ColData.int_vals, Option.some.injEq] at hvals
    subst hvals
    cases order <;> rfl
  | f64 vs =>
    simp only [ColData.int_vals, Option.some.injEq] at hvals
    subst hvals
    cases order <;> rfl
  | utf8 vs => simp [ColData.int_vals] at hvals

theorem take_indices_int_vals (col : ColData) (vals : List (Option Int))
    (hvals : col.int_vals = some vals) (indices : List Nat) :
    (col.take_indices indices).int_vals =
      some (indices.map fun idx => some ((vals.getD idx none).getD 0)) := by
  cases col with
  | i32 vs =>
    simp only [ColData.int_vals, Option.some.injEq] at hvals
    subst hvals
    rfl
  | i64 vs =>
    simp only [ColData.int_vals, Option.some.injEq] at hvals
    subst hvals
    rfl
  | f32 vs =>
    simp only [ColData.int_vals, Option.some.injEq] at hvals
    subst hvals
    rfl
  | f64 vs =>
    simp only [ColData.int_vals, Option.some.injEq] at hvals
    subst hvals
    rfl
  | utf8 vs => simp [ColData.int_vals] at hvals

theorem build_batch_cols_get (batch : RBatch) (indices : List Nat) (c : Nat) :
    (build_batch_from_indices batch indices).cols[c]? =
      (batch.cols[c]?).map fun p => (p.1, p.2.take_indices indices) := by
  unfold build_batch_from_indices
  simp

/-! ### Top-K: the full-sort fallback -/

theorem sort_le_total_nat (vs : List (Option Int)) (descending : Bool) :
    ∀ i j : Nat, (sort_le vs descending i j || sort_le vs descending j i) = true := by
  intro i j
  unfold sort_le
  rcases hgi : vs.getD i none with _ | a <;> rcases hgj : vs.getD j none with _ | b <;>
    simp only [hgi, hgj] <;> cases descending <;> simp <;> omega

theorem sort_le_trans_nat (vs : List (Option Int)) (descending : Bool) :
    ∀ i j l : Nat, sort_le vs descending i j = true → sort_le vs descending j l = true →
      sort_le vs descending i l = true := by
  intro i j l hij hjl
  unfold sort_le at hij hjl ⊢
  rcases hgi : vs.getD i none with _ | a <;> rcases hgj : vs.getD j none with _ | b <;>
    rcases hgl : vs.getD l none with _ | c <;>
    simp only [hgi, hgj, hgl] at hij hjl ⊢ <;> cases descending <;> simp_all <;> omega

theorem map_getD_range {α : Type} (d : α) :
    ∀ (l : List α), (List.range l.length).map (fun i => l.getD i d) = l := by
  intro l
  induction l with
  | nil => rfl
  | cons a rest ih =>
    rw [List.length_cons, List.range_succ_eq_map]
    simp only [List.map_cons, List.map_map]
    have htail : List.map ((fun i => (a :: rest).getD i d) ∘ Nat.succ)
        (List.range rest.length) = rest := by
      have hfun : ((fun i => (a :: rest).getD i d) ∘ Nat.succ) = fun i => rest.getD i d := by
        funext i
        rfl
      rw [hfun]
      exact ih
    rw [htail]
    rfl

theorem getD_is_some_of_all (vals : List (Option Int)) (hall : ∀ v ∈ vals, v ≠ none)
    (i : Nat) (hi : i < vals.length) : ∃ a : Int, vals.getD i none = some a := by
  have hmem : vals[i] ∈ vals := List.getElem_mem hi
  have hne := hall _ hmem
  rw [List.getD_eq_getElem?_getD, List.getElem?_eq_getElem hi]
  rcases h : vals[i] with _ | a
  · exact absurd h hne
  · exact ⟨a, rfl⟩

theorem sort_all_rows_eq (b : RBatch) (c : Nat) (order : SortOrder)
    (col : ColData) (vals : List (Option Int))
    (hgetD : (b.cols.getD c ("", ColData.i32 [])).2 = col)
    (hvals : col.int_vals = some vals) :
    sort_all_rows b c order = build_batch_from_indices b
      ((List.range vals.length).mergeSort
        (sort_le vals (decide (order = SortOrder.Descending)))) := by
  unfold sort_all_rows
  rw [hgetD]
  cases col with
  | i32 vs =>
    simp only [ColData.int_vals, Option.some.injEq] at hvals
    subst hvals
    rfl
  | i64 vs =>
    simp only [ColData.int_vals, Option.some.injEq] at hvals
    subst hvals
    rfl
  | f32 vs =>
    simp only [ColData.int_vals, Option.some.injEq] at hvals
    subst hvals
    rfl
  | f64 vs =>
    simp only [ColData.int_vals, Option.some.injEq] at hvals
    subst hvals
    rfl
  | utf8 vs => simp [ColData.int_vals] at hvals

/-- C3 (amended): for every batch, every in-range column index holding a
numeric column with no nulls, every `k ≥ 1` and every order, `top_k`
succeeds and returns exactly `min k N` rows; the result's sort column is
sorted in the presentation order; its values are a sub-multiset of the
column and every selected value beats every non-selected value (`≥` under
`Descending`, `≤` under `Ascending`).  `top_k` fails with `InvalidInput`
on `k = 0` and on out-of-range column indices.  (With nulls present the
row count can fall short of `min k N`, since the heap only collects
non-null values — see the counterexample.) -/
theorem C3_top_k_correct (b : RBatch) (c k : Nat) (order : SortOrder)
    (name : String) (col : ColData) (vals : List (Option Int))
    (hcol : b.cols[c]? = some (name, col))
    (hvals : col.int_vals = some vals)
    (hall : ∀ v ∈ vals, v ≠ none)
    (hlen : vals.length = b.num_rows)
    (hk : 0 < k) :
    (∃ (r : RBatch) (rvals : List Int),
      top_k b c k order = .ok r ∧
      r.num_rows = min k b.num_rows ∧
      (∃ rcol : ColData, r.cols[c]? = some (name, rcol) ∧
        rcol.int_vals = some (rvals.map some)) ∧
      rvals.length = min k b.num_rows ∧
      List.Pairwise (fun x y => order_le_fun order y x = true) rvals ∧
      (↑rvals : Multiset Int) ≤ ↑(vals.filterMap id) ∧
      (∀ y ∈ (↑(vals.filterMap id) : Multiset Int) - ↑rvals,
        ∀ x ∈ rvals, order_le_fun order y x = true)) ∧
    top_k b c 0 order = .error (.InvalidInput "k must be greater than 0") ∧
    (∀ c2 k2, b.cols.length ≤ c2 → 0 < k2 →
      top_k b c2 k2 order = .error (.InvalidInput ("Column index " ++ toString c2 ++
        " out of bounds (batch has " ++ toString b.cols.length ++ " columns)"))) := by
  have hc : c < b.cols.length := by
    by_contra hcon
    rw [List.getElem?_eq_none (by omega)] at hcol
    exact Option.noConfusion hcol
  have hgetD : (b.cols.getD c ("", ColData.i32 [])).2 = col := by
    rw [List.getD_eq_getElem?_getD, hcol]
    rfl
  have hNfm : (vals.filterMap id).length = b.num_rows := by
    rw [filterMap_id_length_of_all_some vals hall, hlen]
  refine ⟨?_, ?_, ?_⟩
  · -- the success branch
    by_cases hkN : k ≥ b.num_rows
    · -- full-sort fallback
      set desc := decide (order = SortOrder.Descending) with hdesc
      set idx := (List.range vals.length).mergeSort (sort_le vals desc) with hidx
      have hperm : List.Perm idx (List.range vals.length) := List.mergeSort_perm _ _
      have hmemN : ∀ i ∈ idx, i < vals.length := by
        intro i hi
        have := hperm.mem_iff.mp hi
        simpa [List.mem_range] using this
      set f : Nat → Int := fun i => (vals.getD i none).getD 0 with hf
      refine ⟨build_batch_from_indices b idx, idx.map f, ?_, ?_, ?_, ?_, ?_, ?_, ?_⟩
      · unfold top_k
        rw [if_neg (by omega), if_neg (by omega), if_pos hkN]
        rw [sort_all_rows_eq b c order col vals hgetD hvals]
      · unfold build_batch_from_indices
        simp only
        rw [hperm.length_eq, List.length_range, hlen]
        omega
      · refine ⟨col.take_indices idx, ?_, ?_⟩
        · rw [build_batch_cols_get, hcol]
          rfl
        · rw [take_indices_int_vals col vals hvals idx, List.map_map]
          rfl
      · rw [List.length_map, hperm.length_eq, List.length_range, hlen]
        omega
      · rw [List.pairwise_map]
        have hPW := List.sorted_mergeSort
          (sort_le_trans_nat vals desc) (fun a b => sort_le_total_nat vals desc a b)
          (List.range vals.length)
        rw [← hidx] at hPW
        refine hPW.imp_of_mem ?_
        intro i j hi hj hle
        obtain ⟨a, ha⟩ := getD_is_some_of_all vals hall i (hmemN i hi)
        obtain ⟨bb, hb⟩ := getD_is_some_of_all vals hall j (hmemN j hj)
        have hfa : f i = a := by rw [hf]; simp only; rw [ha]; rfl
        have hfb : f j = bb := by rw [hf]; simp only; rw [hb]; rfl
        unfold sort_le at hle
        rw [ha, hb] at hle
        simp only at hle
        rw [hfa, hfb]
        cases order with
        | Descending =>
          rw [hdesc] at hle
          simp only [decide_eq_true_eq] at hle ⊢
          simp only [order_le_fun, le_desc, decide_eq_true_eq]
          simpa using hle
        | Ascending =>
          rw [hdesc] at hle
          simp only [decide_eq_true_eq] at hle ⊢
          simp only [order_le_fun, le_asc, decide_eq_true_eq]
          simpa using hle
      · have hlist : (List.range vals.length).map f = vals.filterMap id := by
          have h1 : (List.range vals.length).map (fun i => vals.getD i none) = vals :=
            map_getD_range none vals
          calc (List.range vals.length).map f
              = ((List.range vals.length).map (fun i => vals.getD i none)).map
                  (fun o => o.getD 0) := by
                rw [List.map_map]
                exact List.map_congr_left fun i _ => rfl
            _ = vals.map (fun o => o.getD 0) := by rw [h1]
            _ = vals.filterMap id := (filterMap_id_eq_map_of_all_some vals hall).symm
        have hmulti : (↑(idx.map f) : Multiset Int) = ↑(vals.filterMap id) := by
          have := Multiset.coe_eq_coe.mpr (hperm.map f)
          rw [this, hlist]
        rw [hmulti]
      · intro y hy x hx
        have hlist : (List.range vals.length).map f = vals.filterMap id := by
          have h1 : (List.range vals.length).map (fun i => vals.getD i none) = vals :=
            map_getD_range none vals
          calc (List.range vals.length).map f
              = ((List.range vals.length).map (fun i => vals.getD i none)).map
                  (fun o => o.getD 0) := by
                rw [List.map_map]
                exact List.map_congr_left fun i _ => rfl
            _ = vals.map (fun o => o.getD 0) := by rw [h1]
            _ = vals.filterMap id := (filterMap_id_eq_map_of_all_some vals hall).symm
        have hmulti : (↑(idx.map f) : Multiset Int) = ↑(vals.filterMap id) := by
          have := Multiset.coe_eq_coe.mpr (hperm.map f)
          rw [this, hlist]
        rw [hmulti, tsub_self] at hy
        exact absurd hy (Multiset.not_mem_zero y)
    · -- bounded-heap selection
      obtain ⟨pairs, hcore, hplen, hPW, hvalid, hsub, hdrop⟩ :=
        select_top_k_core_spec (order_le_fun order) (order_le_fun_total order)
          (order_le_fun_trans order) k vals hk
      refine ⟨build_batch_from_indices b (select_top_k_core (order_le_fun order) k vals),
        pairs.map Prod.fst, ?_, ?_, ?_, ?_, ?_, ?_, ?_⟩
      · unfold top_k
        rw [if_neg (by omega), if_neg (by omega), if_neg hkN]
        rw [hgetD, select_top_k_indices_eq col vals hvals k order]
      · unfold build_batch_from_indices
        simp only
        rw [hcore, List.length_map, hplen, hNfm]
        omega
      · refine ⟨col.take_indices (select_top_k_core (order_le_fun order) k vals), ?_, ?_⟩
        · rw [build_batch_cols_get, hcol]
          rfl
        · rw [take_indices_int_vals col vals hvals, hcore, List.map_map, List.map_map]
          congr 1
          apply List.map_congr_left
          intro p hp
          have hpvalid := hvalid p hp
          have hpD : vals.getD p.2 none = some p.1 := by
            rw [List.getD_eq_getElem?_getD, hpvalid]
            rfl
          simp only [Function.comp]
          rw [hpD]
          rfl
      · rw [List.length_map, hplen, hNfm]
        omega
      · rw [List.pairwise_map]
        exact hPW
      · exact hsub
      · exact hdrop
  · -- k = 0 is rejected
    unfold top_k
    rw [if_pos rfl]
  · -- out-of-range column indices are rejected
    intro c2 k2 hc2 hk2
    unfold top_k
    rw [if_neg (by omega), if_pos (by omega)]

/-- Batch with two nulls and one value in its only column: refutes the
claim's "exactly min(k, N) rows" in the presence of nulls. -/
def batch_c3 : RBatch := ⟨[("v", ColData.i32 [none, none, some 1])], 3, 12⟩

/-- C3 counterexample: on a 3-row batch whose column holds [null, null, 1],
`top_k` with k = 2 descending succeeds but returns 1 row, not
min(k, N) = 2 — the bounded heap only collects non-null values. -/
theorem C3_counterexample :
    top_k batch_c3 0 2 SortOrder.Descending =
      Except.ok ⟨[("v", ColData.i32 [some 1])], 1, 0⟩ ∧
    ¬ (1 = min 2 batch_c3.num_rows) := by
  constructor
  · rfl
  · decide

/-- Concrete batch for the C3 witness: column [5, 2, 8], no nulls. -/
def batch_c3w : RBatch := ⟨[("v", ColData.i32 [some 5, some 2, some 8])], 3, 12⟩

/-- Witness: `C3_top_k_correct` applied to the batch [5, 2, 8] with k = 2
descending, all hypotheses discharged by computation. -/
theorem C3_top_k_correct_witness :
    (∃ (r : RBatch) (rvals : List Int),
      top_k batch_c3w 0 2 SortOrder.Descending = .ok r ∧
      r.num_rows = min 2 batch_c3w.num_rows ∧
      (∃ rcol : ColData, r.cols[0]? = some ("v", rcol) ∧
        rcol.int_vals = some (rvals.map some)) ∧
      rvals.length = min 2 batch_c3w.num_rows ∧
      List.Pairwise (fun x y => order_le_fun SortOrder.Descending y x = true) rvals ∧
      (↑rvals : Multiset Int) ≤
        ↑(([some 5, some 2, some 8] : List (Option Int)).filterMap id) ∧
      (∀ y ∈ (↑(([some 5, some 2, some 8] : List (Option Int)).filterMap id) :
          Multiset Int) - ↑rvals,
        ∀ x ∈ rvals, order_le_fun SortOrder.Descending y x = true)) ∧
    top_k batch_c3w 0 0 SortOrder.Descending =
      .error (.InvalidInput "k must be greater than 0") ∧
    (∀ c2 k2, batch_c3w.cols.length ≤ c2 → 0 < k2 →
      top_k batch_c3w c2 k2 SortOrder.Descending =
        .error (.InvalidInput ("Column index " ++ toString c2 ++
          " out of bounds (batch has " ++ toString batch_c3w.cols.length ++
          " columns)"))) :=
  C3_top_k_correct batch_c3w 0 2 SortOrder.Descending "v"
    (ColData.i32 [some 5, some 2, some 8]) [some 5, some 2, some 8]
    rfl rfl (by decide) rfl (by decide)

/-! ## Query executor (`src/query/executor.rs`)

`QueryExecutor::execute` and its helpers.  Floats stay in the scaled-integer
model: an f32 is an integer multiple of 2⁻¹⁴⁹, an f64 of 2⁻¹⁰⁷⁴. -/

/-- `f32::EPSILON` = 2⁻²³, as a scaled f32 (multiple of 2⁻¹⁴⁹). -/
def F32_EPSILON : Int := ((2 ^ 126 : Nat) : Int)

/-- `f64::EPSILON` = 2⁻⁵², as a scaled f64 (multiple of 2⁻¹⁰⁷⁴). -/
def F64_EPSILON : Int := ((2 ^ 1022 : Nat) : Int)

/-- `QueryExecutor::build_comparison_mask_i32` (executor lines 213-239):
null slots contribute `false`; values dispatch on the operator string,
unknown operators contribute `false`.  The Rust function always returns
`Ok`, kept as `Except` for fidelity. -/
def build_comparison_mask_i32 (vals : List (Option Int)) (op : String) (value : Int) :
    Except Err (List Bool) :=
  .ok (vals.map fun ov =>
    match ov with
    | none => false
    | some v =>
      if op = ">" then decide (v > value)
      else if op = ">=" then decide (v ≥ value)
      else if op = "<" then decide (v < value)
      else if op = "<=" then decide (v ≤ value)
      else if op = "=" then decide (v = value)
      else if op = "!=" ∨ op = "<>" then decide (v ≠ value)
      else false)

/-- `QueryExecutor::build_comparison_mask_i64` (executor lines 241-267). -/
def build_comparison_mask_i64 (vals : List (Option Int)) (op : String) (value : Int) :
    Except Err (List Bool) :=
  .ok (vals.map fun ov =>
    match ov with
    | none => false
    | some v =>
      if op = ">" then decide (v > value)
      else if op = ">=" then decide (v ≥ value)
      else if op = "<" then decide (v < value)
      else if op = "<=" then decide (v ≤ value)
      else if op = "=" then decide (v = value)
      else if op = "!=" ∨ op = "<>" then decide (v ≠ value)
      else false)

/-- `QueryExecutor::build_comparison_mask_f32` (executor lines 270-295):
equality is `(v - value).abs() < f32::EPSILON` with the f32 subtraction,
inequality its complement; order comparisons are exact (the scaled-integer
order coincides with the IEEE order on finite floats). -/
def build_comparison_mask_f32 (vals : List (Option Int)) (op : String) (value : Int) :
    Except Err (List Bool) :=
  .ok (vals.map fun ov =>
    match ov with
    | none => false
    | some v =>
      if op = ">" then decide (v > value)
      else if op = ">=" then decide (v ≥ value)
      else if op = "<" then decide (v < value)
      else if op = "<=" then decide (v ≤ value)
      else if op = "=" then decide (|f32sub v value| < F32_EPSILON)
      else if op = "!=" ∨ op = "<>" then decide (|f32sub v value| ≥ F32_EPSILON)
      else false)

/-- `QueryExecutor::build_comparison_mask_f64` (executor lines 298-323). -/
def build_comparison_mask_f64 (vals : List (Option Int)) (op : String) (value : Int) :
    Except Err (List Bool) :=
  .ok (vals.map fun ov =>
    match ov with
    | none => false
    | some v =>
      if op = ">" then decide (v > value)
      else if op = ">=" then decide (v ≥ value)
      else if op = "<" then decide (v < value)
      else if op = "<=" then decide (v ≤ value)
      else if op = "=" then decide (|f64sub v value| < F64_EPSILON)
      else if op = "!=" ∨ op = "<>" then decide (|f64sub v value| ≥ F64_EPSILON)
      else false)

/-- Digit parsing for integer literals (`str::parse`): accumulate base-10
digits, rejecting any non-digit. -/
def digits_to_nat_go : List Char → Nat → Option Nat
  | [], acc => some acc
  | c :: cs, acc =>
    if c.isDigit then digits_to_nat_go cs (acc * 10 + (c.toNat - 48)) else none

/-- Signed decimal integer literal: optional `+`/`-` sign then one or more
digits (Rust `str::parse` for integer types, before the range check). -/
def parse_int_core (s : String) : Option Int :=
  match s.data with
  | [] => none
  | '+' :: cs =>
    if cs.isEmpty then none else (digits_to_nat_go cs 0).map fun n => (n : Int)
  | '-' :: cs =>
    if cs.isEmpty then none else (digits_to_nat_go cs 0).map fun n => -(n : Int)
  | cs => (digits_to_nat_go cs 0).map fun n => (n : Int)

/-- `value_str.parse::<i32>()`: out-of-range literals are rejected. -/
def parse_i32 (s : String) : Option Int :=
  (parse_int_core s).bind fun v =>
    if -(2 ^ 31) ≤ v ∧ v ≤ 2 ^ 31 - 1 then some v else none

/-- `value_str.parse::<i64>()`: out-of-range literals are rejected. -/
def parse_i64 (s : String) : Option Int :=
  (parse_int_core s).bind fun v =>
    if -(2 ^ 63) ≤ v ∧ v ≤ 2 ^ 63 - 1 then some v else none

/-- `value_str.parse::<f32>()`, restricted to integer-valued decimal
literals: the value rounded to the nearest f32 (round-to-nearest-even), in
the scaled-integer model.  The full std float grammar (fractions,
exponents, infinities) is outside this model; no theorem below depends on
this function. -/
def parse_f32_lit (s : String) : Option Int :=
  (parse_int_core s).map fun v => rnd24 (v * 2 ^ 149)

/-- `value_str.parse::<f64>()`, with the same restriction as
`parse_f32_lit`. -/
def parse_f64_lit (s : String) : Option Int :=
  (parse_int_core s).map fun v => rnd53 (v * 2 ^ 1074)

/-- Keep the slots of a column whose mask entry is `true`
(arrow `filter_record_batch`, per column). -/
def ColData.filter_mask (c : ColData) (mask : List Bool) : ColData :=
  match c with
  | .i32 vs => .i32 ((List.zip vs mask).filterMap fun p => if p.2 then some p.1 else none)
  | .i64 vs => .i64 ((List.zip vs mask).filterMap fun p => if p.2 then some p.1 else none)
  | .f32 vs => .f32 ((List.zip vs mask).filterMap fun p => if p.2 then some p.1 else none)
  | .f64 vs => .f64 ((List.zip vs mask).filterMap fun p => if p.2 then some p.1 else none)
  | .utf8 vs => .utf8 ((List.zip vs mask).filterMap fun p => if p.2 then some p.1 else none)

/-- `compute::filter_record_batch`: keep the rows selected by the mask.
The rebuilt buffers' byte size is not tracked (no claim depends on it). -/
def RBatch.filter_rows (b : RBatch) (mask : List Bool) : RBatch :=
  { cols := b.cols.map fun p => (p.1, p.2.filter_mask mask)
    num_rows := mask.count true
    mem_bytes := 0 }

/-- A batch's schema: column names with their data types. -/
def RBatch.schema (b : RBatch) : List (String × DType) :=
  b.cols.map fun p => (p.1, p.2.dtype)

/-- Append two same-typed columns (arrow `concat`); on a type mismatch the
left column is kept — `combine_batches` only concatenates after checking
schema equality, so the mismatch arm is never taken there. -/
def ColData.concat : ColData → ColData → ColData
  | .i32 xs, .i32 ys => .i32 (xs ++ ys)
  | .i64 xs, .i64 ys => .i64 (xs ++ ys)
  | .f32 xs, .f32 ys => .f32 (xs ++ ys)
  | .f64 xs, .f64 ys => .f64 (xs ++ ys)
  | .utf8 xs, .utf8 ys => .utf8 (xs ++ ys)
  | a, _ => a

/-- `QueryExecutor::combine_batches` (executor lines 120-128): a single
batch is returned as-is; otherwise arrow `concat_batches` concatenates
batches of equal schema column-wise and fails with a `StorageError` on a
schema mismatch.  (The empty case is unreachable from `execute`, which
guards on emptiness first.) -/
def combine_batches (batches : List RBatch) : Except Err RBatch :=
  match batches with
  | [b] => .ok b
  | b :: rest =>
    if ∀ r ∈ rest, r.schema = b.schema then
      .ok (rest.foldl (fun acc r =>
        { cols := List.zipWith (fun p q => (p.1, p.2.concat q.2)) acc.cols r.cols
          num_rows := acc.num_rows + r.num_rows
          mem_bytes := acc.mem_bytes + r.mem_bytes }) b)
    else .error (.StorageError "Failed to combine batches: schema mismatch")
  | [] => .error (.StorageError "Failed to combine batches: no batches")

/-- The column-lookup loop of `QueryExecutor::project_columns`: each
requested name is resolved against the schema, `InvalidInput` on a miss. -/
def lookup_cols (b : RBatch) : List String → Except Err (List (String × ColData))
  | [] => .ok []
  | col_name :: rest =>
    match b.cols.find? (fun p => p.1 == col_name) with
    | none => .error (.InvalidInput ("Column not found: " ++ col_name))
    | some pc =>
      match lookup_cols b rest with
      | .error e => .error e
      | .ok others => .ok (pc :: others)

/-- `QueryExecutor::project_columns` (executor lines 324-349): `["*"]`
returns the batch unchanged; otherwise the requested columns are selected
in order (buffers are shared, so the byte count is kept). -/
def project_columns (b : RBatch) (columns : List String) : Except Err RBatch :=
  if columns.length = 1 ∧ columns.getD 0 "" = "*" then .ok b
  else
    match lookup_cols b columns with
    | .error e => .error e
    | .ok cols2 => .ok { cols := cols2, num_rows := b.num_rows, mem_bytes := b.mem_bytes }

/-- `QueryExecutor::execute_single_aggregation` (executor lines 389-433):
dispatch on the column type; non-numeric types are rejected. -/
def execute_single_aggregation (func : AggregateFunction) (col : ColData) (num_rows : Nat) :
    Except Err (ColData × DType) :=
  match col with
  | .i32 vs => .ok (aggregate_i32 func vs num_rows)
  | .i64 vs => .ok (aggregate_i64 func vs num_rows)
  | .f32 vs => .ok (aggregate_f32 func vs num_rows)
  | .f64 vs => .ok (aggregate_f64 func vs num_rows)
  | .utf8 _ => .error (.InvalidInput "Aggregation not supported for data type: Utf8")

/-- The aggregation loop of `QueryExecutor::execute_aggregations`: the
result column is named by the alias when present; the column is looked up
by `f.name() == col_name || col_name == "*"`. -/
def run_aggregations (b : RBatch) :
    List (AggregateFunction × String × Option String) → Except Err (List (String × ColData))
  | [] => .ok []
  | (agg_func, col_name, al) :: rest =>
    let result_name := al.getD col_name
    match b.cols.findIdx? (fun p => p.1 == col_name || col_name == "*") with
    | none => .error (.InvalidInput ("Column not found: " ++ col_name))
    | some col_index =>
      match execute_single_aggregation agg_func
          (b.cols.getD col_index ("", ColData.i32 [])).2 b.num_rows with
      | .error e => .error e
      | .ok (cd, _) =>
        match run_aggregations b rest with
        | .error e => .error e
        | .ok others => .ok ((result_name, cd) :: others)

/-- `QueryExecutor::execute_aggregations` (executor lines 351-387): GROUP BY
is rejected in Phase 1; otherwise each aggregation yields one single-row
column, so the result batch has one row (this function is only called with
a non-empty aggregation list). -/
def execute_aggregations (b : RBatch) (plan : QueryPlan) : Except Err RBatch :=
  if ¬ plan.group_by.isEmpty then
    .error (.InvalidInput "GROUP BY aggregations not yet implemented in Phase 1")
  else
    match run_aggregations b plan.aggregations with
    | .error e => .error e
    | .ok cols2 => .ok { cols := cols2, num_rows := 1, mem_bytes := 0 }

/-- `QueryExecutor::apply_filter` (executor lines 131-211): split the
expression on whitespace (`split_whitespace` drops empty pieces), require
at least three parts, rejoin the tail with single spaces as the literal,
resolve the column, parse the literal at the column's type, build the
mask, and keep the selected rows. -/
def apply_filter (b : RBatch) (filter_expr : String) : Except Err RBatch :=
  let parts := (filter_expr.split rust_is_whitespace).filter fun s => !s.isEmpty
  if parts.length < 3 then
    .error (.ParseError ("Invalid filter expression: " ++ filter_expr))
  else
    let column_name := parts.getD 0 ""
    let op := parts.getD 1 ""
    let value_str := String.intercalate " " (parts.drop 2)
    match b.cols.findIdx? (fun p => p.1 == column_name) with
    | none => .error (.InvalidInput ("Column not found: " ++ column_name))
    | some column_index =>
      let maskE : Except Err (List Bool) :=
        match (b.cols.getD column_index ("", ColData.i32 [])).2 with
        | .i32 vs =>
          match parse_i32 value_str with
          | none => .error (.ParseError ("Invalid Int32 value: " ++ value_str))
          | some value => build_comparison_mask_i32 vs op value
        | .i64 vs =>
          match parse_i64 value_str with
          | none => .error (.ParseError ("Invalid Int64 value: " ++ value_str))
          | some value => build_comparison_mask_i64 vs op value
        | .f32 vs =>
          match parse_f32_lit value_str with
          | none => .error (.ParseError ("Invalid Float32 value: " ++ value_str))
          | some value => build_comparison_mask_f32 vs op value
        | .f64 vs =>
          match parse_f64_lit value_str with
          | none => .error (.ParseError ("Invalid Float64 value: " ++ value_str))
          | some value => build_comparison_mask_f64 vs op value
        | .utf8 _ => .error (.InvalidInput "Filter not supported for data type: Utf8")
      match maskE with
      | .error e => .error e
      | .ok mask => .ok (b.filter_rows mask)

/-- `QueryExecutor::apply_order_by_limit` (executor lines 635-660): only the
first ORDER BY column is used; LIMIT (or the row count) becomes the k of
`top_k`. -/
def apply_order_by_limit (b : RBatch) (plan : QueryPlan) : Except Err RBatch :=
  match plan.order_by with
  | [] => .ok b
  | (col_name, direction) :: _ =>
    match b.cols.findIdx? (fun p => p.1 == col_name) with
    | none => .error (.InvalidInput ("Column not found: " ++ col_name))
    | some col_index =>
      let sort_order := match direction with
        | OrderDirection.Asc => SortOrder.Ascending
        | OrderDirection.Desc => SortOrder.Descending
      let k := plan.limit.getD b.num_rows
      top_k b col_index k sort_order

/-- `QueryExecutor::execute` (executor lines 84-118): guard against an
empty store, combine batches, apply the WHERE filter, project or
aggregate, then ORDER BY + LIMIT (or a plain LIMIT slice). -/
def execute (plan : QueryPlan) (storage : StorageEngine) : Except Err RBatch :=
  let batches := storage.batches
  if batches.isEmpty then
    .error (.InvalidInput "No data in storage")
  else
    match combine_batches batches with
    | .error e => .error e
    | .ok combined =>
      match (match plan.filter with
             | some filter_expr => apply_filter combined filter_expr
             | none => .ok combined) with
      | .error e => .error e
      | .ok filtered =>
        match (if plan.aggregations.isEmpty then project_columns filtered plan.columns
               else execute_aggregations filtered plan) with
        | .error e => .error e
        | .ok result =>
          if !plan.order_by.isEmpty then apply_order_by_limit result plan
          else
            match plan.limit with
            | some limit => .ok (result.slice 0 (min limit result.num_rows))
            | none => .ok result

/-- C9: executing any query plan against a store whose batch list is empty
fails with `InvalidInput` "No data in storage", and in particular the
executor never returns a result batch for an empty store. -/
theorem C9_empty_storage (plan : QueryPlan) (storage : StorageEngine)
    (h : storage.batches = []) :
    execute plan storage = .error (.InvalidInput "No data in storage") ∧
    ∀ r : RBatch, execute plan storage ≠ .ok r := by
  have hmain : execute plan storage = .error (.InvalidInput "No data in storage") := by
    unfold execute
    rw [h]
    rfl
  refine ⟨hmain, fun r hr => ?_⟩
  rw [hmain] at hr
  exact Except.noConfusion hr

/-- Witness: the empty store, with the sentinel plan. -/
theorem C9_empty_storage_witness :
    (StorageEngine.mk []).batches = [] ∧
    (execute empty_query_plan (StorageEngine.mk []) =
        .error (.InvalidInput "No data in storage") ∧
      ∀ r : RBatch, execute empty_query_plan (StorageEngine.mk []) ≠ .ok r) :=
  ⟨rfl, C9_empty_storage empty_query_plan (StorageEngine.mk []) rfl⟩

/-- C10: in the WHERE masks over Float32 (resp. Float64) columns, a row
with value `v` passes `"="` against literal `K` iff `|v - K| < f32::EPSILON`
(resp. `f64::EPSILON`), passes `"!="` or `"<>"` iff `|v - K| ≥` that
epsilon — the subtraction being the code's float subtraction — and a null
row never passes, whatever the operator. -/
theorem C10_float_filter_epsilon (vals : List (Option Int)) (value : Int) :
    (∀ (i : Nat) (v : Int) (m : List Bool), vals[i]? = some (some v) →
      build_comparison_mask_f32 vals "=" value = .ok m →
      (m[i]? = some true ↔ |f32sub v value| < F32_EPSILON)) ∧
    (∀ (i : Nat) (v : Int) (m : List Bool), vals[i]? = some (some v) →
      build_comparison_mask_f32 vals "!=" value = .ok m →
      (m[i]? = some true ↔ F32_EPSILON ≤ |f32sub v value|)) ∧
    (∀ (i : Nat) (v : Int) (m : List Bool), vals[i]? = some (some v) →
      build_comparison_mask_f32 vals "<>" value = .ok m →
      (m[i]? = some true ↔ F32_EPSILON ≤ |f32sub v value|)) ∧
    (∀ (i : Nat) (op : String) (m : List Bool), vals[i]? = some none →
      build_comparison_mask_f32 vals op value = .ok m →
      m[i]? = some false) ∧
    (∀ (i : Nat) (v : Int) (m : List Bool), vals[i]? = some (some v) →
      build_comparison_mask_f64 vals "=" value = .ok m →
      (m[i]? = some true ↔ |f64sub v value| < F64_EPSILON)) ∧
    (∀ (i : Nat) (v : Int) (m : List Bool), vals[i]? = some (some v) →
      build_comparison_mask_f64 vals "!=" value = .ok m →
      (m[i]? = some true ↔ F64_EPSILON ≤ |f64sub v value|)) ∧
    (∀ (i : Nat) (v : Int) (m : List Bool), vals[i]? = some (some v) →
      build_comparison_mask_f64 vals "<>" value = .ok m →
      (m[i]? = some true ↔ F64_EPSILON ≤ |f64sub v value|)) ∧
    (∀ (i : Nat) (op : String) (m : List Bool), vals[i]? = some none →
      build_comparison_mask_f64 vals op value = .ok m →
      m[i]? = some false) := by
  refine ⟨?_, ?_, ?_, ?_, ?_, ?_, ?_, ?_⟩
  · intro i v m hvi hm
    simp only [build_comparison_mask_f32, Except.ok.injEq] at hm
    subst hm
    rw [List.getElem?_map, hvi]
    simp only [Option.map_some']
    rw [if_neg (by decide), if_neg (by decide), if_neg (by decide), if_neg (by decide),
      if_pos trivial]
    simp only [Option.some.injEq, decide_eq_true_eq]
  · intro i v m hvi hm
    simp only [build_comparison_mask_f32, Except.ok.injEq] at hm
    subst hm
    rw [List.getElem?_map, hvi]
    simp only [Option.map_some']
    rw [if_neg (by decide), if_neg (by decide), if_neg (by decide), if_neg (by decide),
      if_neg (by decide), if_pos (Or.inl trivial)]
    simp only [Option.some.injEq, decide_eq_true_eq]
  · intro i v m hvi hm
    simp only [build_comparison_mask_f32, Except.ok.injEq] at hm
    subst hm
    rw [List.getElem?_map, hvi]
    simp only [Option.map_some']
    rw [if_neg (by decide), if_neg (by decide), if_neg (by decide), if_neg (by decide),
      if_neg (by decide), if_pos (Or.inr trivial)]
    simp only [Option.some.injEq, decide_eq_true_eq]
  · intro i op m hvi hm
    simp only [build_comparison_mask_f32, Except.ok.injEq] at hm
    subst hm
    rw [List.getElem?_map, hvi]
    rfl
  · intro i v m hvi hm
    simp only [build_comparison_mask_f64, Except.ok.injEq] at hm
    subst hm
    rw [List.getElem?_map, hvi]
    simp only [Option.map_some']
    rw [if_neg (by decide), if_neg (by decide), if_neg (by decide), if_neg (by decide),
      if_pos trivial]
    simp only [Option.some.injEq, decide_eq_true_eq]
  · intro i v m hvi hm
    simp only [build_comparison_mask_f64, Except.ok.injEq] at hm
    subst hm
    rw [List.getElem?_map, hvi]
    simp only [Option.map_some']
    rw [if_neg (by decide), if_neg (by decide), if_neg (by decide), if_neg (by decide),
      if_neg (by decide), if_pos (Or.inl trivial)]
    simp only [Option.some.injEq, decide_eq_true_eq]
  · intro i v m hvi hm
    simp only [build_comparison_mask_f64, Except.ok.injEq] at hm
    subst hm
    rw [List.getElem?_map, hvi]
    simp only [Option.map_some']
    rw [if_neg (by decide), if_neg (by decide), if_neg (by decide), if_neg (by decide),
      if_neg (by decide), if_pos (Or.inr trivial)]
    simp only [Option.some.injEq, decide_eq_true_eq]
  · intro i op m hvi hm
    simp only [build_comparison_mask_f64, Except.ok.injEq] at hm
    subst hm
    rw [List.getElem?_map, hvi]
    rfl

/-- Witness: column `[7, null]` (scaled f32/f64 values) against literal 7:
the value row passes `"="` and fails `"!="`; the null row passes nothing. -/
theorem C10_float_filter_epsilon_witness :
    (([true, false] : List Bool)[0]? = some true ↔ |f32sub 7 7| < F32_EPSILON) ∧
    (([false, false] : List Bool)[0]? = some true ↔ F32_EPSILON ≤ |f32sub 7 7|) ∧
    (([true, false] : List Bool)[1]? = some false) ∧
    (([true, false] : List Bool)[0]? = some true ↔ |f64sub 7 7| < F64_EPSILON) ∧
    (([true, false] : List Bool)[1]? = some false) :=
  ⟨(C10_float_filter_epsilon [some 7, none] 7).1 0 7 [true, false] rfl (congrArg Except.ok (by decide)),
   (C10_float_filter_epsilon [some 7, none] 7).2.1 0 7 [false, false] rfl (congrArg Except.ok (by decide)),
   (C10_float_filter_epsilon [some 7, none] 7).2.2.2.1 1 "=" [true, false] rfl (congrArg Except.ok (by decide)),
   (C10_float_filter_epsilon [some 7, none] 7).2.2.2.2.1 0 7 [true, false] rfl (congrArg Except.ok (by decide)),
   (C10_float_filter_epsilon [some 7, none] 7).2.2.2.2.2.2.2 1 "=" [true, false] rfl (congrArg Except.ok (by decide))⟩

end TruenoDB
